import Mathlib

/-!
Shallow embedding of the pagination / layout engine of the `reader`
repository (`src/lib/view/pagination.ts`, with the anchor scan of
`src/lib/reader/book-reader.ts`).

Modelling conventions:
* JavaScript numbers are modelled as exact rationals (`ℚ`).  The engine's
  arithmetic is plain addition, subtraction, multiplication, `Math.min`,
  one division (image downscale) and one `Math.ceil` (paragraph spacing).
* The canvas text-measurement service (`context.measureText` after
  `updateCanvasFont`) is an abstract parameter `TextMeasure`:
  a function from the segment's style and the measured string to a width.
* `throw new Error(...)` is modelled with `Except PagErr`.
* The `while` loop of `Paginator.calculatePages` is modelled with explicit
  fuel; `Except.ok none` is the fuel-exhaustion marker, so a run of the
  JavaScript loop that terminates corresponds to some fuel giving a result
  different from `.ok none`.
-/

/-! ### Words: `text.split(/(\s+)/).filter(w => w.trim() !== "")`

The regex split keeps the whitespace runs as separate tokens and the filter
drops them (and empty tokens), so the result is the list of maximal
whitespace-free runs of the string.  We model it on `List Char`. -/

/-- Maximal whitespace-free runs of a character list; models
`s.split(/(\s+)/).filter(w => w.trim() !== "")`. -/
def chunkWords : List Char → List (List Char)
  | [] => []
  | c :: cs =>
    if c.isWhitespace then chunkWords cs
    else
      (c :: cs.takeWhile (fun d => !d.isWhitespace)) ::
        chunkWords (cs.dropWhile (fun d => !d.isWhitespace))
termination_by l => l.length
decreasing_by
  · simp only [List.length_cons]; omega
  · simp only [List.length_cons]
    exact Nat.lt_succ_of_le (List.dropWhile_sublist _).length_le

/-- Word list of a string (source: `segment.text.split(/(\s+)/).filter(...)`). -/
def splitWords (s : String) : List String :=
  (chunkWords s.data).map (fun l => String.mk l)

/-- Character-level join with a single space; models `words.join(" ")`. -/
def joinChars : List (List Char) → List Char
  | [] => []
  | [w] => w
  | w :: ws => w ++ ' ' :: joinChars ws

/-- String-level join with a single space; models `Array.prototype.join(" ")`. -/
def joinWords (ws : List String) : String :=
  String.mk (joinChars (ws.map String.data))

/-- A chunk-word: nonempty and free of whitespace characters. -/
def WordOk (w : List Char) : Prop :=
  w ≠ [] ∧ ∀ c ∈ w, c.isWhitespace = false

lemma takeWhile_all_append {p : Char → Bool} {xs : List Char} (y : Char) (zs : List Char)
    (hxs : ∀ x ∈ xs, p x = true) (hy : p y = false) :
    (xs ++ y :: zs).takeWhile p = xs := by
  induction xs with
  | nil => simp [List.takeWhile, hy]
  | cons a l ih =>
    have ha : p a = true := hxs a (by simp)
    simp only [List.cons_append, List.takeWhile, ha]
    simp only [List.cons.injEq, true_and]
    exact ih (fun x hx => hxs x (by simp [hx]))

lemma dropWhile_all_append {p : Char → Bool} {xs : List Char} (y : Char) (zs : List Char)
    (hxs : ∀ x ∈ xs, p x = true) (hy : p y = false) :
    (xs ++ y :: zs).dropWhile p = y :: zs := by
  induction xs with
  | nil => simp [List.dropWhile, hy]
  | cons a l ih =>
    have ha : p a = true := hxs a (by simp)
    simp only [List.cons_append, List.dropWhile, ha]
    exact ih (fun x hx => hxs x (by simp [hx]))

lemma takeWhile_all {p : Char → Bool} {xs : List Char}
    (hxs : ∀ x ∈ xs, p x = true) : xs.takeWhile p = xs := by
  induction xs with
  | nil => rfl
  | cons a l ih =>
    have ha : p a = true := hxs a (by simp)
    simp only [List.takeWhile, ha]
    simp only [List.cons.injEq, true_and]
    exact ih (fun x hx => hxs x (by simp [hx]))

lemma dropWhile_all {p : Char → Bool} {xs : List Char}
    (hxs : ∀ x ∈ xs, p x = true) : xs.dropWhile p = [] := by
  induction xs with
  | nil => rfl
  | cons a l ih =>
    have ha : p a = true := hxs a (by simp)
    simp only [List.dropWhile, ha]
    exact ih (fun x hx => hxs x (by simp [hx]))

/-- A single whitespace-free nonempty run is one chunk. -/
lemma chunkWords_single {w : List Char} (hw : WordOk w) : chunkWords w = [w] := by
  obtain ⟨hne, hchars⟩ := hw
  cases w with
  | nil => exact absurd rfl hne
  | cons c cs =>
    have hc : c.isWhitespace = false := hchars c (by simp)
    rw [chunkWords]
    simp only [hc, Bool.false_eq_true, if_false]
    have htake : cs.takeWhile (fun d => !d.isWhitespace) = cs :=
      takeWhile_all (fun x hx => by simp [hchars x (by simp [hx])])
    have hdrop : cs.dropWhile (fun d => !d.isWhitespace) = [] :=
      dropWhile_all (fun x hx => by simp [hchars x (by simp [hx])])
    rw [htake, hdrop, chunkWords]

/-- A whitespace-free nonempty run followed by a space peels off as one chunk. -/
lemma chunkWords_word_space {w : List Char} (rest : List Char) (hw : WordOk w) :
    chunkWords (w ++ ' ' :: rest) = w :: chunkWords rest := by
  obtain ⟨hne, hchars⟩ := hw
  cases w with
  | nil => exact absurd rfl hne
  | cons c cs =>
    have hc : c.isWhitespace = false := hchars c (by simp)
    rw [List.cons_append, chunkWords]
    simp only [hc, Bool.false_eq_true, if_false]
    have hsp : (' '.isWhitespace : Bool) = true := by decide
    have htake : (cs ++ ' ' :: rest).takeWhile (fun d => !d.isWhitespace) = cs :=
      takeWhile_all_append _ _ (fun x hx => by simp [hchars x (by simp [hx])]) (by simp [hsp])
    have hdrop : (cs ++ ' ' :: rest).dropWhile (fun d => !d.isWhitespace) = ' ' :: rest :=
      dropWhile_all_append _ _ (fun x hx => by simp [hchars x (by simp [hx])]) (by simp [hsp])
    rw [htake, hdrop, chunkWords]
    simp [hsp]

/-- Rejoining whole chunk-words and re-splitting gives the words back. -/
lemma chunkWords_joinChars {ws : List (List Char)} (h : ∀ w ∈ ws, WordOk w) :
    chunkWords (joinChars ws) = ws := by
  induction ws with
  | nil => simp [joinChars, chunkWords]
  | cons w ws ih =>
    cases ws with
    | nil =>
      show chunkWords w = [w]
      exact chunkWords_single (h w (by simp))
    | cons w' ws' =>
      show chunkWords (w ++ ' ' :: joinChars (w' :: ws')) = w :: w' :: ws'
      rw [chunkWords_word_space _ (h w (by simp))]
      rw [ih (fun x hx => h x (by simp [hx]))]

/-- Every chunk produced by `chunkWords` is nonempty and whitespace-free. -/
lemma chunkWords_wordOk : ∀ (l : List Char), ∀ w ∈ chunkWords l, WordOk w := by
  intro l
  induction l using chunkWords.induct with
  | case1 => intro w hw; simp [chunkWords] at hw
  | case2 c cs hc ih =>
    intro w hw
    rw [chunkWords, if_pos hc] at hw
    exact ih w hw
  | case3 c cs hc ih =>
    intro w hw
    rw [chunkWords, if_neg hc] at hw
    rcases List.mem_cons.1 hw with h | h
    · subst h
      refine ⟨by simp, ?_⟩
      intro x hx
      rcases List.mem_cons.1 hx with h | h
      · subst h; simpa using hc
      · have := List.mem_takeWhile_imp h
        simpa using this
    · exact ih w h

/-- String-level version of `chunkWords_joinChars`: rejoining words produced by
`splitWords` (or any whitespace-free nonempty words) and re-splitting
reproduces them. -/
lemma splitWords_joinWords {ws : List String}
    (h : ∀ w ∈ ws, WordOk w.data) : splitWords (joinWords ws) = ws := by
  unfold splitWords joinWords
  rw [show (String.mk (joinChars (ws.map String.data))).data = joinChars (ws.map String.data) from rfl]
  rw [chunkWords_joinChars (by intro w hw; obtain ⟨x, hx, rfl⟩ := List.mem_map.1 hw; exact h x hx)]
  rw [List.map_map]
  have : (fun l => String.mk l) ∘ String.data = id := by
    funext s; cases s; rfl
  rw [this, List.map_id]

/-- Every word produced by `splitWords` is nonempty and whitespace-free. -/
lemma splitWords_wordOk (s : String) : ∀ w ∈ splitWords s, WordOk w.data := by
  intro w hw
  unfold splitWords at hw
  obtain ⟨l, hl, rfl⟩ := List.mem_map.1 hw
  exact chunkWords_wordOk _ _ hl

/-! ### Content block model (`src/lib/view/pagination.ts` types)

The optional anchor `id` fields are not in the stale type declarations of
`pagination.ts` but are exercised by `pagination.test.ts`
(block `metadata: { tag: "p", id: "test" }`, segment
`metadata: { id: "test" }`) and required by `book-reader.ts` and the spec's
data model; the layout code never reads them. -/

structure Style where
  bold : Bool := false
  italic : Bool := false
  underline : Bool := false
deriving Repr, DecidableEq

structure SegMetadata where
  id : Option String := none
deriving Repr, DecidableEq

structure RichTextSegment where
  text : String
  style : Style := {}
  metadata : SegMetadata := {}
deriving Repr, DecidableEq

structure RichTextMeta where
  tag : String
  id : Option String := none
deriving Repr, DecidableEq

structure ImageDims where
  width : ℚ
  height : ℚ
deriving Repr, DecidableEq

structure ImageMeta where
  dimensions : ImageDims
  alt : Option String := none
  id : Option String := none
deriving Repr, DecidableEq

structure HeadingMeta where
  level : ℤ
  id : Option String := none
deriving Repr, DecidableEq

/-- The closed tagged union `ContentBlock` (the commented-out `TextBlock`
variant of the source is excluded there as well). -/
inductive ContentBlock where
  | image (src : String) (metadata : ImageMeta)
  | heading (content : String) (metadata : HeadingMeta)
  | richtext (segments : List RichTextSegment) (metadata : RichTextMeta)
deriving Repr, DecidableEq

def ContentBlock.isHeading : ContentBlock → Bool
  | .heading _ _ => true
  | _ => false

structure TextMetrics where
  containerWidth : ℚ
  containerHeight : ℚ
  fontSize : ℚ
  lineHeight : ℚ
  paragraphSpacing : ℚ
deriving Repr, DecidableEq

/-- The abstract text-measurement service: style and measured string to
rendered pixel width (models `canvasContext.measureText(...)` after
`updateCanvasFont(segment)`). -/
def TextMeasure : Type := Style → String → ℚ

/-- `PageResult` of the source.  The `blockOffset` annotation of
`WithOffset` is never populated by the current richtext path
(`TODO add offsets at a later stage`) and is dropped. -/
inductive PageResult where
  | pageCompleted (remainingBlock : ContentBlock)
  | pageHasSpace (remainingHeight : ℚ)
deriving Repr, DecidableEq

/-- The `throw new Error(...)` cases reachable in the engine. -/
inductive PagErr where
  | imageTooLargeForPage
  | segmentIndexOutOfBounds
  | wordIndexOutOfBounds
deriving Repr, DecidableEq

/-- Fixed richtext line pitch: `BASE_FONT_SIZE_PX * LINE_HEIGHT_FACTOR`
= `24 * (5/3)`, independent of the configured `TextMetrics`. -/
def richLineHeight : ℚ := 24 * (5 / 3)

/-- Source: `Page.calculateHeadingHeight`. -/
def TextMetrics.calculateHeadingHeight (tm : TextMetrics) (level : ℤ) : ℚ :=
  tm.fontSize * tm.lineHeight * (5 / 2 - ((level : ℚ) - 1) * (1 / 4))

/-- Source: `Page.calculateImageHeight`.  `Math.min(1, w / width)` is taken
in exact rational arithmetic; rational division by zero is zero. -/
def TextMetrics.calculateImageHeight (tm : TextMetrics) : Option ImageDims → ℚ
  | none => tm.fontSize * tm.lineHeight * 2
  | some d => d.height * min 1 (tm.containerWidth / d.width)

/-- The `Page` entity: configured metrics, placed blocks in push order, and
the mutable `remainingHeight` counter. -/
structure Page where
  textMetrics : TextMetrics
  blocks : List ContentBlock
  remainingHeight : ℚ
deriving Repr, DecidableEq

/-- Source: the `Page` constructor (`remainingHeight = containerHeight`,
no blocks). -/
def Page.new (tm : TextMetrics) : Page :=
  { textMetrics := tm, blocks := [], remainingHeight := tm.containerHeight }

/-- Source: `Page.tryAddHeadingBlock`. -/
def Page.tryAddHeadingBlock (page : Page) (content : String) (m : HeadingMeta) :
    Page × PageResult :=
  if 0 < page.blocks.length then
    (page, .pageCompleted (.heading content m))
  else
    let headingHeight := page.textMetrics.calculateHeadingHeight m.level
    if page.remainingHeight < headingHeight then
      (page, .pageCompleted (.heading content m))
    else
      ({ page with
          blocks := page.blocks ++ [.heading content m],
          remainingHeight := page.remainingHeight - headingHeight },
        .pageHasSpace (page.remainingHeight - headingHeight))

/-- Source: `Page.tryAddImageBlock`.  The dimensions are passed wrapped in
`some` because the `ImageBlock` type makes them mandatory, while
`calculateImageHeight` still guards against their absence. -/
def Page.tryAddImageBlock (page : Page) (src : String) (m : ImageMeta) :
    Except PagErr (Page × PageResult) :=
  let imageHeight := page.textMetrics.calculateImageHeight (some m.dimensions)
  if page.textMetrics.containerHeight < imageHeight then
    .error .imageTooLargeForPage
  else if page.remainingHeight < imageHeight then
    .ok (page, .pageCompleted (.image src m))
  else
    .ok ({ page with
            blocks := page.blocks ++ [.image src m],
            remainingHeight := page.remainingHeight - imageHeight },
          .pageHasSpace (page.remainingHeight - imageHeight))

/-- Outcome of the word loop over one segment: `more` carries the running
`currentLineWidth` and `remainingHeight`; `split` carries the word index
(relative to this segment's word list) at which the page ran out of lines,
and the page's `remainingHeight` as already decremented by the loop. -/
inductive SegStep where
  | more (lineWidth remainingHeight : ℚ)
  | split (wordIndex : Nat) (remainingHeight : ℚ)
deriving Repr, DecidableEq

/-- Shift a relative split index past one consumed word. -/
def SegStep.shift : SegStep → SegStep
  | .more lw rh => .more lw rh
  | .split j rh => .split (j + 1) rh

/-- The `for (const [wordIndex, word] of words.entries())` loop of
`tryAddRichTextBlock` for one segment.  `lw` is `currentLineWidth`, `rh`
is `this.remainingHeight`; the measured string gets a leading space unless
the line is empty (`currentLineWidth === 0`). -/
def wrapSegment (meas : TextMeasure) (maxWidth : ℚ) (style : Style) :
    List String → ℚ → ℚ → SegStep
  | [], lw, rh => .more lw rh
  | w :: ws, lw, rh =>
    -- wordToMeasure: a leading space unless at line start (currentLineWidth === 0);
    -- exceedsLineWidth: currentLineWidth + wordWidth > maxWidth && currentLineWidth > 0
    if maxWidth < lw + meas style (if lw = 0 then w else " " ++ w) ∧ 0 < lw then
      -- Complete current line (remainingHeight -= lineHeight), then check space
      if richLineHeight ≤ rh - richLineHeight then
        -- Just go to the next line for the next word
        (wrapSegment meas maxWidth style ws
          (meas style (if lw = 0 then w else " " ++ w)) (rh - richLineHeight)).shift
      else
        -- We need to partition the block at this word in this segment
        .split 0 (rh - richLineHeight)
    else
      -- Continue the same line
      (wrapSegment meas maxWidth style ws
        (lw + meas style (if lw = 0 then w else " " ++ w)) rh).shift

/-- Outcome of the segment loop over the whole block. -/
inductive WrapOutcome where
  | fits (lineWidth remainingHeight : ℚ)
  | split (segIndex wordIndex : Nat) (remainingHeight : ℚ)
deriving Repr, DecidableEq

/-- The `for (const [segmentIndex, segment] of block.segments.entries())`
loop of `tryAddRichTextBlock`. -/
def wrapBlock (meas : TextMeasure) (maxWidth : ℚ) :
    List RichTextSegment → ℚ → ℚ → WrapOutcome
  | [], lw, rh => .fits lw rh
  | seg :: rest, lw, rh =>
    match wrapSegment meas maxWidth seg.style (splitWords seg.text) lw rh with
    | .more lw' rh' =>
      match wrapBlock meas maxWidth rest lw' rh' with
      | .fits lw'' rh'' => .fits lw'' rh''
      | .split s j r => .split (s + 1) j r
    | .split j rh' => .split 0 j rh'

/-- Source: the local `splitBlock` closure of `tryAddRichTextBlock`.
Out-of-bounds indices throw (`SHOULD NOT OCCUR ...`); a split at word
index 0 splits at the segment boundary; otherwise the split-point segment
is divided into two halves whose texts are the words rejoined with single
spaces, keeping the segment's style (and metadata) and the block's
metadata on both sides. -/
def splitBlock (segs : List RichTextSegment) (m : RichTextMeta) (s j : Nat) :
    Except PagErr (ContentBlock × ContentBlock) :=
  match segs[s]? with
  | none => .error .segmentIndexOutOfBounds
  | some segment =>
    let words := splitWords segment.text
    if words.length ≤ j then .error .wordIndexOutOfBounds
    else if j = 0 then
      .ok (.richtext (segs.take s) m, .richtext (segs.drop s) m)
    else
      let completedSegmentHalf := { segment with text := joinWords (words.take j) }
      let remainingSegmentHalf := { segment with text := joinWords (words.drop j) }
      .ok (.richtext (segs.take s ++ [completedSegmentHalf]) m,
           .richtext (remainingSegmentHalf :: segs.drop (s + 1)) m)

/-- Source: `Page.tryAddRichTextBlock`. -/
def Page.tryAddRichTextBlock (meas : TextMeasure) (page : Page)
    (segs : List RichTextSegment) (m : RichTextMeta) :
    Except PagErr (Page × PageResult) :=
  if page.remainingHeight < richLineHeight then
    .ok (page, .pageCompleted (.richtext segs m))
  else
    match wrapBlock meas page.textMetrics.containerWidth segs 0 page.remainingHeight with
    | .fits lw rh =>
      -- Check the last line that we have; then the entire block fits
      let rh' := if 0 < lw then rh - richLineHeight else rh
      .ok ({ page with
              blocks := page.blocks ++ [.richtext segs m],
              remainingHeight := rh' },
            .pageHasSpace rh')
    | .split s j rh =>
      match splitBlock segs m s j with
      | .error e => .error e
      | .ok (completedBlock, remainingBlock) =>
        .ok ({ page with
                blocks := page.blocks ++ [completedBlock],
                remainingHeight := rh },
              .pageCompleted remainingBlock)

/-- The variant dispatch (`switch (block.type)`) of `Page.tryAddBlock`.
The `default: throw` arm is unreachable: the union is closed. -/
def Page.tryAddBlockInner (meas : TextMeasure) (page : Page) :
    ContentBlock → Except PagErr (Page × PageResult)
  | .heading content m => .ok (page.tryAddHeadingBlock content m)
  | .image src m => page.tryAddImageBlock src m
  | .richtext segs m => page.tryAddRichTextBlock meas segs m

/-- Source: `Page.tryAddBlock`.  A full page returns the block untouched;
after a `page-has-space` result the configured `paragraphSpacing` is
subtracted from the counter (the result keeps the pre-subtraction value:
the source's `TODO: update the result accordingly`). -/
def Page.tryAddBlock (meas : TextMeasure) (page : Page) (block : ContentBlock) :
    Except PagErr (Page × PageResult) :=
  if page.remainingHeight ≤ 0 then
    .ok (page, .pageCompleted block)
  else
    match page.tryAddBlockInner meas block with
    | .error e => .error e
    | .ok (page', .pageHasSpace rh) =>
      .ok ({ page' with
              remainingHeight := page'.remainingHeight - page.textMetrics.paragraphSpacing },
            .pageHasSpace rh)
    | .ok (page', .pageCompleted b) => .ok (page', .pageCompleted b)

/-! ### Paginator (`Paginator.calculatePages`) -/

/-- The per-run metrics assembled by `calculatePages`
(`paragraphSpacing = Math.ceil(fontSize * 4 / 3)`). -/
def paginatorTextMetrics (width height fontSize lineHeight : ℚ) : TextMetrics :=
  { containerWidth := width
    containerHeight := height
    fontSize := fontSize
    lineHeight := lineHeight
    paragraphSpacing := (⌈(fontSize * 4) / 3⌉ : ℤ) }

/-- The inner `while (pageResult.type === "page-completed" ...)` loop of
`calculatePages`, fuelled.  `.ok none` marks fuel exhaustion. -/
def addBlockLoop (meas : TextMeasure) (tm : TextMetrics) :
    Nat → List Page → Page → ContentBlock →
    Except PagErr (Option (List Page × Page))
  | 0, _, _, _ => .ok none
  | fuel + 1, pages, current, block =>
    match current.tryAddBlock meas block with
    | .error e => .error e
    | .ok (current', .pageHasSpace _) => .ok (some (pages, current'))
    | .ok (current', .pageCompleted remaining) =>
      addBlockLoop meas tm fuel (pages ++ [current']) (Page.new tm) remaining

/-- The outer `for (const block of blocks)` loop of `calculatePages`. -/
def calcLoop (meas : TextMeasure) (tm : TextMetrics) (fuel : Nat) :
    List ContentBlock → List Page → Page →
    Except PagErr (Option (List Page × Page))
  | [], pages, current => .ok (some (pages, current))
  | b :: bs, pages, current =>
    match addBlockLoop meas tm fuel pages current b with
    | .error e => .error e
    | .ok none => .ok none
    | .ok (some (pages', current')) => calcLoop meas tm fuel bs pages' current'

/-- Source: `Paginator.calculatePages`.  The final guard
`pages.length === 0 || pages[pages.length - 1] !== currentPage` compares
object identity; the object held by `currentPage` after the loops is never
an element of `pages` (it is pushed only inside the `while` loop, right
before `currentPage` is reassigned), so the guard always appends the
current page. -/
def calculatePages (meas : TextMeasure) (width height fontSize lineHeight : ℚ)
    (fuel : Nat) (blocks : List ContentBlock) :
    Except PagErr (Option (List Page)) :=
  let tm := paginatorTextMetrics width height fontSize lineHeight
  match calcLoop meas tm fuel blocks [] (Page.new tm) with
  | .error e => .error e
  | .ok none => .ok none
  | .ok (some (pages, current)) => .ok (some (pages ++ [current]))

/-! ### Anchor lookup

`Page.checkIfPageContainsId` is exercised by `pagination.test.ts` and called
by `BookReader.navigateToId`, but its implementation is not among the
sources; it is modelled from the spec below.  The page scan itself
(`chapterPages.findIndex((page) => page.checkIfPageContainsId(id))`) is
source code of `book-reader.ts`. -/

/-- The anchor id carried by a block's own metadata. -/
def ContentBlock.metadataId : ContentBlock → Option String
  | .image _ m => m.id
  | .heading _ m => m.id
  | .richtext _ m => m.id

/-- Modelled from the spec: `Page.checkIfPageContainsId` is missing from the
sources (only its tests in `pagination.test.ts` and its caller in
`book-reader.ts` are present).  Spec: "true if any block's own metadata id,
or any RichText segment's metadata id, equals `id`". -/
def Page.checkIfPageContainsId (page : Page) (id : String) : Bool :=
  page.blocks.any fun b =>
    b.metadataId == some id ||
      match b with
      | .richtext segs _ => segs.any fun seg => seg.metadata.id == some id
      | _ => false

/-- Source: the linear `findIndex` scan over a chapter's page list in
`BookReader.navigateToId` (`none` models the `-1` of a missed scan). -/
def pageScan (id : String) : List Page → Option Nat
  | [] => none
  | p :: ps =>
    if p.checkIfPageContainsId id then some 0
    else (pageScan id ps).map (· + 1)

/-! ### Word accounting used by the preservation and termination claims -/

/-- Words of one segment. -/
def segWords (seg : RichTextSegment) : List String := splitWords seg.text

/-- Words of all RichText segments of a block, in reading order
(non-richtext blocks contribute none). -/
def blockRichWords : ContentBlock → List String
  | .richtext segs _ => segs.flatMap segWords
  | _ => []

/-- Words of all RichText segments of all blocks of a page, in block order
then segment order. -/
def pageRichWords (page : Page) : List String :=
  page.blocks.flatMap blockRichWords

/-- Words carried away by a `PageResult`: the remainder's words, if any. -/
def resultRichWords : PageResult → List String
  | .pageCompleted b => blockRichWords b
  | .pageHasSpace _ => []

/-- Number of words of the (s, j) prefix of a segment list: all words of
segments before `s` plus `j` words of segment `s`. -/
def wordsBefore (segs : List RichTextSegment) (s j : Nat) : Nat :=
  ((segs.take s).flatMap segWords).length + j

def wordCountB (b : ContentBlock) : Nat := (blockRichWords b).length

/-- Sufficient conditions for a block to make progress on a fresh page:
positive container height, headings no taller than the container, and a
container at least one fixed richtext line high. -/
def goodBlock (tm : TextMetrics) : ContentBlock → Prop
  | .heading _ m =>
    tm.calculateHeadingHeight m.level ≤ tm.containerHeight ∧ 0 < tm.containerHeight
  | .image _ _ => 0 < tm.containerHeight
  | .richtext _ _ => richLineHeight ≤ tm.containerHeight

instance (tm : TextMetrics) : (b : ContentBlock) → Decidable (goodBlock tm b)
  | .heading _ _ => inferInstanceAs (Decidable (_ ∧ _))
  | .image _ _ => inferInstanceAs (Decidable (_ < _))
  | .richtext _ _ => inferInstanceAs (Decidable (_ ≤ _))

/-- Fuel that provably suffices for the inner retry loop of every block. -/
def sufficientFuel (blocks : List ContentBlock) : Nat :=
  (blocks.flatMap blockRichWords).length + 2

/-- Termination of `calculatePages` for a given configuration and input:
some fuel avoids the fuel-exhaustion marker. -/
def terminatesOn (meas : TextMeasure) (width height fontSize lineHeight : ℚ)
    (blocks : List ContentBlock) : Prop :=
  ∃ fuel, calculatePages meas width height fontSize lineHeight fuel blocks ≠ .ok none

/-! ### Lemmas about `splitBlock` -/

lemma segWords_join_take {seg : RichTextSegment} (j : Nat) :
    splitWords (joinWords ((splitWords seg.text).take j)) = (splitWords seg.text).take j :=
  splitWords_joinWords fun w hw =>
    splitWords_wordOk seg.text w (List.take_subset _ _ hw)

lemma segWords_join_drop {seg : RichTextSegment} (j : Nat) :
    splitWords (joinWords ((splitWords seg.text).drop j)) = (splitWords seg.text).drop j :=
  splitWords_joinWords fun w hw =>
    splitWords_wordOk seg.text w (List.drop_subset _ _ hw)

/-- A successful `splitBlock` partitions the block's words: the completed
block's words followed by the remainder's words are exactly the original
words, and the completed side holds exactly the `(s, j)`-prefix. -/
lemma splitBlock_ok_words {segs : List RichTextSegment} {m : RichTextMeta}
    {s j : Nat} {c r : ContentBlock}
    (h : splitBlock segs m s j = .ok (c, r)) :
    blockRichWords c ++ blockRichWords r = blockRichWords (.richtext segs m) ∧
    (blockRichWords c).length = wordsBefore segs s j := by
  cases hget : segs[s]? with
  | none => rw [splitBlock, hget] at h; cases h
  | some seg =>
    simp only [splitBlock, hget] at h
    have hs' : s < segs.length := by
      by_contra hc
      rw [List.getElem?_eq_none (by omega)] at hget
      cases hget
    have hseg : segs[s] = seg := by
      have hx := List.getElem?_eq_getElem hs'
      rw [hget] at hx
      exact (Option.some.inj hx).symm
    split_ifs at h with hj hj0
    · obtain ⟨rfl, rfl⟩ : ContentBlock.richtext (segs.take s) m = c ∧
          ContentBlock.richtext (segs.drop s) m = r := by
        simpa using h
      constructor
      · show (segs.take s).flatMap segWords ++ (segs.drop s).flatMap segWords
          = segs.flatMap segWords
        rw [← List.flatMap_append, List.take_append_drop]
      · subst hj0
        show ((segs.take s).flatMap segWords).length = wordsBefore segs s 0
        simp only [wordsBefore, Nat.add_zero]
    · have hj' : j < (splitWords seg.text).length := by omega
      obtain ⟨rfl, rfl⟩ :
          ContentBlock.richtext (segs.take s ++
                [{ seg with text := joinWords ((splitWords seg.text).take j) }]) m = c ∧
          ContentBlock.richtext ({ seg with
                text := joinWords ((splitWords seg.text).drop j) } ::
                segs.drop (s + 1)) m = r := by
        simpa using h
      have hctext : segWords { seg with
          text := joinWords ((splitWords seg.text).take j) }
          = (splitWords seg.text).take j := segWords_join_take j
      have hrtext : segWords { seg with
          text := joinWords ((splitWords seg.text).drop j) }
          = (splitWords seg.text).drop j := segWords_join_drop j
      constructor
      · show (segs.take s ++ [_]).flatMap segWords ++ (_ :: segs.drop (s + 1)).flatMap segWords
          = segs.flatMap segWords
        rw [List.flatMap_append, List.flatMap_cons, List.flatMap_cons, List.flatMap_nil]
        rw [hctext, hrtext]
        conv_rhs =>
          rw [← List.take_append_drop s segs,
              List.drop_eq_getElem_cons hs', List.flatMap_append, List.flatMap_cons]
        rw [hseg]
        have hwords : segWords seg = (splitWords seg.text) := rfl
        rw [hwords]
        simp only [List.append_nil, List.append_assoc]
        rw [← List.append_assoc (List.take j (splitWords seg.text)), List.take_append_drop]
      · show ((segs.take s ++ [_]).flatMap segWords).length = _
        rw [List.flatMap_append, List.flatMap_cons, List.flatMap_nil, List.append_nil]
        rw [hctext, List.length_append, List.length_take]
        simp only [wordsBefore, blockRichWords]
        omega

/-! ### Word preservation through `tryAddBlock` -/
lemma pageRichWords_push (page : Page) (b : ContentBlock) (rh : ℚ) :
    pageRichWords { page with blocks := page.blocks ++ [b], remainingHeight := rh }
      = pageRichWords page ++ blockRichWords b := by
  simp [pageRichWords, List.flatMap_append]

/-! ### Inversion lemmas for the placement functions -/

lemma tryAddHeadingBlock_inv {page : Page} {content : String} {m : HeadingMeta}
    {page' : Page} {res : PageResult}
    (h : page.tryAddHeadingBlock content m = (page', res)) :
    (page' = page ∧ res = .pageCompleted (.heading content m) ∧
      (0 < page.blocks.length ∨
        page.remainingHeight < page.textMetrics.calculateHeadingHeight m.level)) ∨
    (¬ 0 < page.blocks.length ∧
      ¬ page.remainingHeight < page.textMetrics.calculateHeadingHeight m.level ∧
      page' = { page with
        blocks := page.blocks ++ [.heading content m],
        remainingHeight :=
          page.remainingHeight - page.textMetrics.calculateHeadingHeight m.level } ∧
      res = .pageHasSpace
        (page.remainingHeight - page.textMetrics.calculateHeadingHeight m.level)) := by
  by_cases h1 : 0 < page.blocks.length
  · left
    simp only [Page.tryAddHeadingBlock, if_pos h1] at h
    exact ⟨(Prod.mk.inj h).1.symm, (Prod.mk.inj h).2.symm, Or.inl h1⟩
  · by_cases h2 : page.remainingHeight < page.textMetrics.calculateHeadingHeight m.level
    · left
      simp only [Page.tryAddHeadingBlock, if_neg h1, if_pos h2] at h
      exact ⟨(Prod.mk.inj h).1.symm, (Prod.mk.inj h).2.symm, Or.inr h2⟩
    · right
      simp only [Page.tryAddHeadingBlock, if_neg h1, if_neg h2] at h
      exact ⟨h1, h2, (Prod.mk.inj h).1.symm, (Prod.mk.inj h).2.symm⟩

lemma tryAddImageBlock_inv {page : Page} {src : String} {m : ImageMeta}
    {page' : Page} {res : PageResult}
    (h : page.tryAddImageBlock src m = .ok (page', res)) :
    ¬ page.textMetrics.containerHeight
        < page.textMetrics.calculateImageHeight (some m.dimensions) ∧
    ((page.remainingHeight < page.textMetrics.calculateImageHeight (some m.dimensions) ∧
        page' = page ∧ res = .pageCompleted (.image src m)) ∨
      (¬ page.remainingHeight < page.textMetrics.calculateImageHeight (some m.dimensions) ∧
        page' = { page with
          blocks := page.blocks ++ [.image src m],
          remainingHeight := page.remainingHeight
            - page.textMetrics.calculateImageHeight (some m.dimensions) } ∧
        res = .pageHasSpace (page.remainingHeight
            - page.textMetrics.calculateImageHeight (some m.dimensions)))) := by
  by_cases h1 : page.textMetrics.containerHeight
      < page.textMetrics.calculateImageHeight (some m.dimensions)
  · simp only [Page.tryAddImageBlock, if_pos h1] at h
    cases h
  · refine ⟨h1, ?_⟩
    by_cases h2 : page.remainingHeight < page.textMetrics.calculateImageHeight (some m.dimensions)
    · left
      simp only [Page.tryAddImageBlock, if_neg h1, if_pos h2, Except.ok.injEq] at h
      exact ⟨h2, (Prod.mk.inj h).1.symm, (Prod.mk.inj h).2.symm⟩
    · right
      simp only [Page.tryAddImageBlock, if_neg h1, if_neg h2, Except.ok.injEq] at h
      exact ⟨h2, (Prod.mk.inj h).1.symm, (Prod.mk.inj h).2.symm⟩

lemma tryAddRichTextBlock_inv {meas : TextMeasure} {page : Page}
    {segs : List RichTextSegment} {m : RichTextMeta} {page' : Page} {res : PageResult}
    (h : page.tryAddRichTextBlock meas segs m = .ok (page', res)) :
    (page.remainingHeight < richLineHeight ∧
      page' = page ∧ res = .pageCompleted (.richtext segs m)) ∨
    (¬ page.remainingHeight < richLineHeight ∧
      ((∃ lw rh,
          wrapBlock meas page.textMetrics.containerWidth segs 0 page.remainingHeight
            = .fits lw rh ∧
          page' = { page with
            blocks := page.blocks ++ [.richtext segs m],
            remainingHeight := if 0 < lw then rh - richLineHeight else rh } ∧
          res = .pageHasSpace (if 0 < lw then rh - richLineHeight else rh)) ∨
        (∃ s j rh cb rb,
          wrapBlock meas page.textMetrics.containerWidth segs 0 page.remainingHeight
            = .split s j rh ∧
          splitBlock segs m s j = .ok (cb, rb) ∧
          page' = { page with blocks := page.blocks ++ [cb], remainingHeight := rh } ∧
          res = .pageCompleted rb))) := by
  by_cases h1 : page.remainingHeight < richLineHeight
  · left
    simp only [Page.tryAddRichTextBlock, if_pos h1, Except.ok.injEq] at h
    exact ⟨h1, (Prod.mk.inj h).1.symm, (Prod.mk.inj h).2.symm⟩
  · right
    refine ⟨h1, ?_⟩
    rw [Page.tryAddRichTextBlock, if_neg h1] at h
    cases hwrap : wrapBlock meas page.textMetrics.containerWidth segs 0 page.remainingHeight with
    | fits lw rh =>
      left
      rw [hwrap] at h
      simp only [Except.ok.injEq] at h
      exact ⟨lw, rh, rfl, (Prod.mk.inj h).1.symm, (Prod.mk.inj h).2.symm⟩
    | split s j rh =>
      right
      rw [hwrap] at h
      dsimp only at h
      cases hsplit : splitBlock segs m s j with
      | error e => rw [hsplit] at h; cases h
      | ok pr =>
        obtain ⟨cb, rb⟩ := pr
        rw [hsplit] at h
        simp only [Except.ok.injEq] at h
        exact ⟨s, j, rh, cb, rb, rfl, hsplit,
          (Prod.mk.inj h).1.symm, (Prod.mk.inj h).2.symm⟩

lemma tryAddBlock_inv {meas : TextMeasure} {page : Page} {b : ContentBlock}
    {page' : Page} {res : PageResult}
    (h : page.tryAddBlock meas b = .ok (page', res)) :
    (page.remainingHeight ≤ 0 ∧ page' = page ∧ res = .pageCompleted b) ∨
    (¬ page.remainingHeight ≤ 0 ∧
      ((∃ pi rh, page.tryAddBlockInner meas b = .ok (pi, .pageHasSpace rh) ∧
          page' = { pi with
            remainingHeight := pi.remainingHeight - page.textMetrics.paragraphSpacing } ∧
          res = .pageHasSpace rh) ∨
        (∃ pi rb, page.tryAddBlockInner meas b = .ok (pi, .pageCompleted rb) ∧
          page' = pi ∧ res = .pageCompleted rb))) := by
  by_cases h1 : page.remainingHeight ≤ 0
  · left
    simp only [Page.tryAddBlock, if_pos h1, Except.ok.injEq] at h
    exact ⟨h1, (Prod.mk.inj h).1.symm, (Prod.mk.inj h).2.symm⟩
  · right
    refine ⟨h1, ?_⟩
    rw [Page.tryAddBlock, if_neg h1] at h
    cases hinner : page.tryAddBlockInner meas b with
    | error e => rw [hinner] at h; cases h
    | ok pr =>
      obtain ⟨pi, ri⟩ := pr
      rw [hinner] at h
      cases ri with
      | pageHasSpace rh =>
        left
        simp only [Except.ok.injEq] at h
        exact ⟨pi, rh, rfl, (Prod.mk.inj h).1.symm, (Prod.mk.inj h).2.symm⟩
      | pageCompleted rb =>
        right
        simp only [Except.ok.injEq] at h
        exact ⟨pi, rb, rfl, (Prod.mk.inj h).1.symm, (Prod.mk.inj h).2.symm⟩

/-- The dispatch preserves richtext words: the words now on the page plus the
words carried by the result are the words previously on the page plus the
input block's words. -/
lemma tryAddBlockInner_words {meas : TextMeasure} {page : Page} {b : ContentBlock}
    {page' : Page} {res : PageResult}
    (h : page.tryAddBlockInner meas b = .ok (page', res)) :
    pageRichWords page' ++ resultRichWords res
      = pageRichWords page ++ blockRichWords b := by
  cases b with
  | heading content m =>
    replace h : page.tryAddHeadingBlock content m = (page', res) := by
      rw [Page.tryAddBlockInner] at h
      simpa using h
    rcases tryAddHeadingBlock_inv h with ⟨rfl, rfl, _⟩ | ⟨_, _, rfl, rfl⟩ <;>
      simp [resultRichWords, pageRichWords_push, blockRichWords]
  | image src m =>
    replace h : page.tryAddImageBlock src m = .ok (page', res) := h
    rcases (tryAddImageBlock_inv h).2 with ⟨_, rfl, rfl⟩ | ⟨_, rfl, rfl⟩ <;>
      simp [resultRichWords, pageRichWords_push, blockRichWords]
  | richtext segs m =>
    replace h : page.tryAddRichTextBlock meas segs m = .ok (page', res) := h
    rcases tryAddRichTextBlock_inv h with ⟨_, rfl, rfl⟩ |
        ⟨_, ⟨lw, rh, hwrap, rfl, rfl⟩ | ⟨s, j, rh, cb, rb, hwrap, hsplit, rfl, rfl⟩⟩
    · simp [resultRichWords]
    · simp [resultRichWords, pageRichWords_push]
    · have hp := (splitBlock_ok_words hsplit).1
      simp only [resultRichWords, pageRichWords_push, List.append_assoc, hp]

/-- `tryAddBlock` preserves richtext words. -/
lemma tryAddBlock_words {meas : TextMeasure} {page : Page} {b : ContentBlock}
    {page' : Page} {res : PageResult}
    (h : page.tryAddBlock meas b = .ok (page', res)) :
    pageRichWords page' ++ resultRichWords res
      = pageRichWords page ++ blockRichWords b := by
  rcases tryAddBlock_inv h with ⟨_, rfl, rfl⟩ |
      ⟨_, ⟨pi, rh, hinner, rfl, rfl⟩ | ⟨pi, rb, hinner, rfl, rfl⟩⟩
  · simp [resultRichWords]
  · have := tryAddBlockInner_words hinner
    simpa [resultRichWords, pageRichWords] using this
  · exact tryAddBlockInner_words hinner

lemma tryAddBlockInner_textMetrics {meas : TextMeasure} {page : Page} {b : ContentBlock}
    {page' : Page} {res : PageResult}
    (h : page.tryAddBlockInner meas b = .ok (page', res)) :
    page'.textMetrics = page.textMetrics := by
  cases b with
  | heading content m =>
    replace h : page.tryAddHeadingBlock content m = (page', res) := by
      rw [Page.tryAddBlockInner] at h
      simpa using h
    rcases tryAddHeadingBlock_inv h with ⟨rfl, _, _⟩ | ⟨_, _, rfl, _⟩ <;> rfl
  | image src m =>
    rcases (tryAddImageBlock_inv h).2 with ⟨_, rfl, _⟩ | ⟨_, rfl, _⟩ <;> rfl
  | richtext segs m =>
    rcases tryAddRichTextBlock_inv h with ⟨_, rfl, _⟩ |
        ⟨_, ⟨lw, rh, _, rfl, _⟩ | ⟨s, j, rh, cb, rb, _, _, rfl, _⟩⟩ <;> rfl

lemma tryAddBlock_textMetrics {meas : TextMeasure} {page : Page} {b : ContentBlock}
    {page' : Page} {res : PageResult}
    (h : page.tryAddBlock meas b = .ok (page', res)) :
    page'.textMetrics = page.textMetrics := by
  rcases tryAddBlock_inv h with ⟨_, rfl, _⟩ |
      ⟨_, ⟨pi, rh, hinner, rfl, _⟩ | ⟨pi, rb, hinner, rfl, _⟩⟩
  · rfl
  · have hm := tryAddBlockInner_textMetrics hinner
    exact hm
  · exact tryAddBlockInner_textMetrics hinner

/-! ### Driver lemmas -/

lemma addBlockLoop_words {meas : TextMeasure} {tm : TextMetrics} :
    ∀ {fuel : Nat} {pages : List Page} {current : Page} {b : ContentBlock}
      {pages' : List Page} {current' : Page},
    addBlockLoop meas tm fuel pages current b = .ok (some (pages', current')) →
    pages'.flatMap pageRichWords ++ pageRichWords current'
      = pages.flatMap pageRichWords ++ pageRichWords current ++ blockRichWords b := by
  intro fuel
  induction fuel with
  | zero => intro pages current b pages' current' h; cases h
  | succ fuel ih =>
    intro pages current b pages' current' h
    rw [addBlockLoop] at h
    cases htry : current.tryAddBlock meas b with
    | error e => rw [htry] at h; cases h
    | ok pr =>
      obtain ⟨c', res⟩ := pr
      rw [htry] at h
      have hw := tryAddBlock_words htry
      cases res with
      | pageHasSpace rh =>
        obtain ⟨rfl, rfl⟩ : pages = pages' ∧ c' = current' := by
          simpa using h
        simpa [resultRichWords, List.append_assoc] using hw
      | pageCompleted remaining =>
        have hrec := ih h
        rw [hrec]
        simp only [resultRichWords] at hw
        simp [pageRichWords, Page.new, List.flatMap_append, List.append_assoc]
        simpa [pageRichWords] using hw

lemma calcLoop_words {meas : TextMeasure} {tm : TextMetrics} {fuel : Nat} :
    ∀ {blocks : List ContentBlock} {pages : List Page} {current : Page}
      {pages' : List Page} {current' : Page},
    calcLoop meas tm fuel blocks pages current = .ok (some (pages', current')) →
    pages'.flatMap pageRichWords ++ pageRichWords current'
      = pages.flatMap pageRichWords ++ pageRichWords current
          ++ blocks.flatMap blockRichWords := by
  intro blocks
  induction blocks with
  | nil =>
    intro pages current pages' current' h
    obtain ⟨rfl, rfl⟩ : pages = pages' ∧ current = current' := by
      rw [calcLoop] at h
      simpa using h
    simp
  | cons b bs ih =>
    intro pages current pages' current' h
    rw [calcLoop] at h
    cases hloop : addBlockLoop meas tm fuel pages current b with
    | error e => rw [hloop] at h; cases h
    | ok o =>
      cases o with
      | none => rw [hloop] at h; cases h
      | some pr =>
        obtain ⟨pages₁, current₁⟩ := pr
        rw [hloop] at h
        have h1 := addBlockLoop_words hloop
        have h2 := ih h
        rw [h2, h1]
        simp [List.append_assoc]

/-! ### Wrap-loop facts: heights never increase, splits need a nonempty line -/

/-- The page height carried by a `SegStep`. -/
def segStepHeight : SegStep → ℚ
  | .more _ rh => rh
  | .split _ rh => rh

lemma richLineHeight_pos : (0 : ℚ) < richLineHeight := by
  rw [richLineHeight]; norm_num

lemma segStepHeight_shift (s : SegStep) : segStepHeight s.shift = segStepHeight s := by
  cases s <;> rfl

lemma wrapSegment_height {meas : TextMeasure} {maxW : ℚ} {st : Style} :
    ∀ (ws : List String) (lw rh : ℚ),
    segStepHeight (wrapSegment meas maxW st ws lw rh) ≤ rh := by
  intro ws
  induction ws with
  | nil => intro lw rh; rw [wrapSegment]; exact le_refl rh
  | cons w ws ih =>
    intro lw rh
    rw [wrapSegment]
    by_cases hc : maxW < lw + meas st (if lw = 0 then w else " " ++ w) ∧ 0 < lw
    · rw [if_pos hc]
      by_cases hs : richLineHeight ≤ rh - richLineHeight
      · rw [if_pos hs, segStepHeight_shift]
        have h1 := ih (meas st (if lw = 0 then w else " " ++ w)) (rh - richLineHeight)
        have hpos := richLineHeight_pos
        linarith
      · rw [if_neg hs]
        have hpos := richLineHeight_pos
        show rh - richLineHeight ≤ rh
        linarith
    · rw [if_neg hc, segStepHeight_shift]
      exact ih _ rh

/-- A split reported at word index 0 requires a nonempty current line. -/
lemma wrapSegment_split_zero {meas : TextMeasure} {maxW : ℚ} {st : Style} :
    ∀ {ws : List String} {lw rh rh' : ℚ} {j : Nat},
    wrapSegment meas maxW st ws lw rh = .split j rh' → j = 0 → 0 < lw := by
  intro ws
  induction ws with
  | nil => intro lw rh rh' j h _; rw [wrapSegment] at h; cases h
  | cons w ws ih =>
    intro lw rh rh' j h hj
    rw [wrapSegment] at h
    by_cases hc : maxW < lw + meas st (if lw = 0 then w else " " ++ w) ∧ 0 < lw
    · rw [if_pos hc] at h
      by_cases hs : richLineHeight ≤ rh - richLineHeight
      · rw [if_pos hs] at h
        cases hrec : wrapSegment meas maxW st ws
            (meas st (if lw = 0 then w else " " ++ w)) (rh - richLineHeight) with
        | more lw'' rh'' => rw [hrec] at h; cases h
        | split j' r =>
          rw [hrec] at h
          cases h
          exact absurd hj (by omega)
      · exact hc.2
    · rw [if_neg hc] at h
      cases hrec : wrapSegment meas maxW st ws
          (lw + meas st (if lw = 0 then w else " " ++ w)) rh with
      | more lw'' rh'' => rw [hrec] at h; cases h
      | split j' r =>
        rw [hrec] at h
        cases h
        exact absurd hj (by omega)

/-- The page height carried by a `WrapOutcome`. -/
def wrapHeight : WrapOutcome → ℚ
  | .fits _ rh => rh
  | .split _ _ rh => rh

lemma wrapBlock_height {meas : TextMeasure} {maxW : ℚ} :
    ∀ (segs : List RichTextSegment) (lw rh : ℚ),
    wrapHeight (wrapBlock meas maxW segs lw rh) ≤ rh := by
  intro segs
  induction segs with
  | nil => intro lw rh; rw [wrapBlock]; exact le_refl rh
  | cons seg rest ih =>
    intro lw rh
    rw [wrapBlock]
    cases hseg : wrapSegment meas maxW seg.style (splitWords seg.text) lw rh with
    | more lw' rh' =>
      have h1 : rh' ≤ rh := by
        have hx := @wrapSegment_height meas maxW seg.style
          (splitWords seg.text) lw rh
        rw [hseg] at hx
        exact hx
      dsimp only
      cases hrest : wrapBlock meas maxW rest lw' rh' with
      | fits lw'' rh'' =>
        have h2 := ih lw' rh'
        rw [hrest] at h2
        exact le_trans h2 h1
      | split s j r =>
        have h2 := ih lw' rh'
        rw [hrest] at h2
        exact le_trans h2 h1
    | split j rh' =>
      have h1 : rh' ≤ rh := by
        have hx := @wrapSegment_height meas maxW seg.style
          (splitWords seg.text) lw rh
        rw [hseg] at hx
        exact hx
      exact h1

lemma wordsBefore_cons_succ (seg : RichTextSegment) (rest : List RichTextSegment)
    (s j : Nat) :
    wordsBefore (seg :: rest) (s + 1) j
      = (segWords seg).length + wordsBefore rest s j := by
  simp [wordsBefore, List.take_succ_cons, Nat.add_assoc]

/-- A split reported by the whole-block loop with no words before it requires
a nonempty current line at entry. -/
lemma wrapBlock_split_before {meas : TextMeasure} {maxW : ℚ} :
    ∀ {segs : List RichTextSegment} {lw rh rh' : ℚ} {s j : Nat},
    wrapBlock meas maxW segs lw rh = .split s j rh' →
    wordsBefore segs s j = 0 → 0 < lw := by
  intro segs
  induction segs with
  | nil => intro lw rh rh' s j h _; rw [wrapBlock] at h; cases h
  | cons seg rest ih =>
    intro lw rh rh' s j h hz
    rw [wrapBlock] at h
    cases hseg : wrapSegment meas maxW seg.style (splitWords seg.text) lw rh with
    | split j₀ r =>
      rw [hseg] at h
      cases h
      have hj : j = 0 := by
        simpa [wordsBefore] using hz
      exact wrapSegment_split_zero hseg hj
    | more lw' rh₂ =>
      rw [hseg] at h
      dsimp only at h
      cases hrest : wrapBlock meas maxW rest lw' rh₂ with
      | fits lw'' rh'' => rw [hrest] at h; cases h
      | split s' j' r =>
        rw [hrest] at h
        cases h
        rw [wordsBefore_cons_succ] at hz
        have hsegnil : segWords seg = [] := by
          have := Nat.eq_zero_of_add_eq_zero_right hz
          exact List.length_eq_zero.1 (by omega)
        have hlw : lw' = lw := by
          have hsegnil' : splitWords seg.text = [] := hsegnil
          rw [hsegnil'] at hseg
          rw [wrapSegment] at hseg
          cases hseg
          rfl
        rw [← hlw]
        exact ih hrest (by omega)

/-- Structure of a successful `splitBlock`: at word index 0 the split is at
the segment boundary; otherwise exactly the split-point segment is divided
into two halves that keep its style and metadata, and both sides keep the
block metadata. -/
lemma splitBlock_ok_struct {segs : List RichTextSegment} {m : RichTextMeta}
    {s j : Nat} {cb rb : ContentBlock}
    (h : splitBlock segs m s j = .ok (cb, rb)) :
    ∃ hs' : s < segs.length,
      j < (splitWords (segs.get ⟨s, hs'⟩).text).length ∧
      ((j = 0 ∧ cb = .richtext (segs.take s) m ∧ rb = .richtext (segs.drop s) m) ∨
        (0 < j ∧
          cb = .richtext (segs.take s ++
            [{ segs.get ⟨s, hs'⟩ with
                text := joinWords ((splitWords (segs.get ⟨s, hs'⟩).text).take j) }]) m ∧
          rb = .richtext ({ segs.get ⟨s, hs'⟩ with
                text := joinWords ((splitWords (segs.get ⟨s, hs'⟩).text).drop j) } ::
              segs.drop (s + 1)) m)) := by
  cases hget : segs[s]? with
  | none => rw [splitBlock, hget] at h; cases h
  | some seg =>
    simp only [splitBlock, hget] at h
    have hs' : s < segs.length := by
      by_contra hc
      rw [List.getElem?_eq_none (by omega)] at hget
      cases hget
    have hseg : segs.get ⟨s, hs'⟩ = seg := by
      have hx := List.getElem?_eq_getElem hs'
      rw [hget] at hx
      have hy : seg = segs[s] := Option.some.inj hx
      exact hy.symm
    refine ⟨hs', ?_⟩
    rw [hseg]
    split_ifs at h with hj hj0
    · have h' : ContentBlock.richtext (segs.take s) m = cb ∧
          ContentBlock.richtext (segs.drop s) m = rb := by
        simpa using h
      exact ⟨by omega, Or.inl ⟨hj0, h'.1.symm, h'.2.symm⟩⟩
    · have h' : ContentBlock.richtext (segs.take s ++
            [{ seg with text := joinWords ((splitWords seg.text).take j) }]) m = cb ∧
          ContentBlock.richtext ({ seg with
              text := joinWords ((splitWords seg.text).drop j) } ::
            segs.drop (s + 1)) m = rb := by
        simpa using h
      exact ⟨by omega, Or.inr ⟨by omega, h'.1.symm, h'.2.symm⟩⟩

/-! ### Termination: fresh-page progress -/

lemma Page.new_remainingHeight (tm : TextMetrics) :
    (Page.new tm).remainingHeight = tm.containerHeight := rfl

lemma Page.new_blocks (tm : TextMetrics) : (Page.new tm).blocks = [] := rfl

lemma goodBlock_containerHeight_pos {tm : TextMetrics} {b : ContentBlock}
    (hb : goodBlock tm b) : 0 < tm.containerHeight := by
  cases b with
  | heading content m => exact hb.2
  | image src m => exact hb
  | richtext segs m =>
    have h40 := richLineHeight_pos
    have : richLineHeight ≤ tm.containerHeight := hb
    linarith

/-- The completed remainder never carries more words than the input block,
and inherits its `goodBlock` bound. -/
lemma tryAddBlockInner_completed_le {meas : TextMeasure} {page : Page}
    {b : ContentBlock} {pi : Page} {rb : ContentBlock}
    (h : page.tryAddBlockInner meas b = .ok (pi, .pageCompleted rb)) :
    wordCountB rb ≤ wordCountB b ∧
      (goodBlock page.textMetrics b → goodBlock page.textMetrics rb) := by
  cases b with
  | heading content m =>
    replace h : page.tryAddHeadingBlock content m = (pi, .pageCompleted rb) := by
      rw [Page.tryAddBlockInner] at h
      simpa using h
    rcases tryAddHeadingBlock_inv h with ⟨_, hres, _⟩ | ⟨_, _, _, hres⟩
    · obtain rfl : rb = .heading content m := by
        cases hres
        rfl
      exact ⟨le_refl _, fun hg => hg⟩
    · cases hres
  | image src m =>
    rcases (tryAddImageBlock_inv h).2 with ⟨_, _, hres⟩ | ⟨_, _, hres⟩
    · obtain rfl : rb = .image src m := by
        cases hres
        rfl
      exact ⟨le_refl _, fun hg => hg⟩
    · cases hres
  | richtext segs m =>
    rcases tryAddRichTextBlock_inv h with ⟨_, _, hres⟩ |
        ⟨_, ⟨lw, rh, _, _, hres⟩ | ⟨s, j, rh, cb, rb', hwrap, hsplit, _, hres⟩⟩
    · obtain rfl : rb = .richtext segs m := by
        cases hres
        rfl
      exact ⟨le_refl _, fun hg => hg⟩
    · cases hres
    · obtain rfl : rb = rb' := by
        cases hres
        rfl
      have hp := (splitBlock_ok_words hsplit).1
      have hlen : wordCountB cb + wordCountB rb = wordCountB (.richtext segs m) := by
        have := congrArg List.length hp
        simpa [wordCountB] using this
      constructor
      · omega
      · intro hg
        obtain ⟨hs', _, hshape⟩ := splitBlock_ok_struct hsplit
        rcases hshape with ⟨_, _, hrb⟩ | ⟨_, _, hrb⟩ <;>
          · rw [hrb]
            exact hg

lemma tryAddBlock_completed_le {meas : TextMeasure} {page : Page}
    {b : ContentBlock} {p' : Page} {r : ContentBlock}
    (h : page.tryAddBlock meas b = .ok (p', .pageCompleted r)) :
    wordCountB r ≤ wordCountB b ∧
      (goodBlock page.textMetrics b → goodBlock page.textMetrics r) := by
  rcases tryAddBlock_inv h with ⟨_, _, hres⟩ |
      ⟨_, ⟨pi, rh, hinner, _, hres⟩ | ⟨pi, rb, hinner, _, hres⟩⟩
  · obtain rfl : r = b := by
      cases hres
      rfl
    exact ⟨le_refl _, fun hg => hg⟩
  · cases hres
  · obtain rfl : r = rb := by
      cases hres
      rfl
    exact tryAddBlockInner_completed_le hinner

/-- On a fresh page, a `goodBlock` either aborts, lands, or is split with at
least one word placed (so the remainder is strictly smaller). -/
lemma tryAddBlock_fresh_progress {meas : TextMeasure} {tm : TextMetrics}
    {b : ContentBlock} (hb : goodBlock tm b) :
    (∃ e, (Page.new tm).tryAddBlock meas b = .error e) ∨
    (∃ p rh, (Page.new tm).tryAddBlock meas b = .ok (p, .pageHasSpace rh)) ∨
    (∃ p r, (Page.new tm).tryAddBlock meas b = .ok (p, .pageCompleted r) ∧
      wordCountB r < wordCountB b) := by
  cases hres : (Page.new tm).tryAddBlock meas b with
  | error e => exact Or.inl ⟨e, rfl⟩
  | ok pr =>
    obtain ⟨p, res⟩ := pr
    cases res with
    | pageHasSpace rh => exact Or.inr (Or.inl ⟨p, rh, rfl⟩)
    | pageCompleted r =>
      refine Or.inr (Or.inr ⟨p, r, rfl, ?_⟩)
      have hch : 0 < tm.containerHeight := goodBlock_containerHeight_pos hb
      rcases tryAddBlock_inv hres with ⟨hguard, _, _⟩ |
          ⟨_, ⟨pi, rh, hinner, _, hres2⟩ | ⟨pi, rb, hinner, _, hres2⟩⟩
      · rw [Page.new_remainingHeight] at hguard
        linarith
      · cases hres2
      · obtain rfl : r = rb := by
          cases hres2
          rfl
        clear hres2
        cases b with
        | heading content m =>
          replace hinner : (Page.new tm).tryAddHeadingBlock content m
              = (pi, .pageCompleted r) := by
            rw [Page.tryAddBlockInner] at hinner
            simpa using hinner
          rcases tryAddHeadingBlock_inv hinner with ⟨_, _, hcase⟩ | ⟨_, _, _, hcase⟩
          · rcases hcase with hlen | hht
            · rw [Page.new_blocks] at hlen
              simp at hlen
            · rw [Page.new_remainingHeight] at hht
              have := hb.1
              simp only [Page.new] at hht
              linarith [hb.1]
          · cases hcase
        | image src m =>
          obtain ⟨hno, hcase⟩ := tryAddImageBlock_inv hinner
          have hno' : ¬ tm.containerHeight
              < tm.calculateImageHeight (some m.dimensions) := hno
          rcases hcase with ⟨hht, _, _⟩ | ⟨_, _, hcase2⟩
          · rw [Page.new_remainingHeight] at hht
            have hht' : tm.containerHeight
                < tm.calculateImageHeight (some m.dimensions) := hht
            exact absurd hht' hno'
          · cases hcase2
        | richtext segs m =>
          rcases tryAddRichTextBlock_inv hinner with ⟨hht, _, _⟩ |
              ⟨_, ⟨lw, rh, _, _, hcase2⟩ | ⟨s, j, rh, cb, rb', hwrap, hsplit, _, hres3⟩⟩
          · rw [Page.new_remainingHeight] at hht
            have h40 : richLineHeight ≤ tm.containerHeight := hb
            linarith
          · cases hcase2
          · obtain rfl : r = rb' := by
              cases hres3
              rfl
            have hp := splitBlock_ok_words hsplit
            have hlen : wordCountB cb + wordCountB r = wordCountB (.richtext segs m) := by
              have := congrArg List.length hp.1
              simpa [wordCountB] using this
            have hbefore : wordsBefore segs s j ≠ 0 := by
              intro hzero
              have := wrapBlock_split_before hwrap hzero
              exact absurd this (by norm_num)
            have hcb : 0 < wordCountB cb := by
              have := hp.2
              simp only [wordCountB]
              omega
            omega

/-- With enough fuel, the retry loop started on a fresh page never exhausts
its fuel. -/
lemma addBlockLoop_fresh {meas : TextMeasure} {tm : TextMetrics} :
    ∀ (n : Nat) (b : ContentBlock) (pages : List Page),
    goodBlock tm b → wordCountB b < n →
    addBlockLoop meas tm n pages (Page.new tm) b ≠ .ok none := by
  intro n
  induction n with
  | zero => intro b pages _ hlt; omega
  | succ n ih =>
    intro b pages hb hlt
    rw [addBlockLoop]
    rcases @tryAddBlock_fresh_progress meas tm b hb with
        ⟨e, he⟩ | ⟨p, rh, hok⟩ | ⟨p, r, hok, hdec⟩
    · rw [he]
      simp
    · rw [hok]
      simp
    · rw [hok]
      have hgood : goodBlock tm r := by
        have := (tryAddBlock_completed_le hok).2
        simpa [Page.new] using this hb
      exact ih r (pages ++ [p]) hgood (by omega)

/-- With enough fuel, the retry loop never exhausts its fuel from any
current page whose metrics are the paginator's. -/
lemma addBlockLoop_progress {meas : TextMeasure} {tm : TextMetrics}
    {n : Nat} {b : ContentBlock} {pages : List Page} {current : Page}
    (hcur : current.textMetrics = tm)
    (hb : goodBlock tm b) (hlt : wordCountB b + 1 < n) :
    addBlockLoop meas tm n pages current b ≠ .ok none := by
  cases n with
  | zero => omega
  | succ n =>
    rw [addBlockLoop]
    cases htry : current.tryAddBlock meas b with
    | error e => simp
    | ok pr =>
      obtain ⟨c', res⟩ := pr
      cases res with
      | pageHasSpace rh => simp
      | pageCompleted r =>
        have hle := tryAddBlock_completed_le htry
        have hgood : goodBlock tm r := by
          rw [← hcur]
          exact hle.2 (by rw [hcur]; exact hb)
        exact addBlockLoop_fresh n r (pages ++ [c']) hgood (by omega)

lemma addBlockLoop_textMetrics {meas : TextMeasure} {tm : TextMetrics} :
    ∀ {fuel : Nat} {pages : List Page} {current : Page} {b : ContentBlock}
      {pages' : List Page} {current' : Page},
    addBlockLoop meas tm fuel pages current b = .ok (some (pages', current')) →
    current.textMetrics = tm → current'.textMetrics = tm := by
  intro fuel
  induction fuel with
  | zero => intro pages current b pages' current' h _; cases h
  | succ fuel ih =>
    intro pages current b pages' current' h hcur
    rw [addBlockLoop] at h
    cases htry : current.tryAddBlock meas b with
    | error e => rw [htry] at h; cases h
    | ok pr =>
      obtain ⟨c', res⟩ := pr
      rw [htry] at h
      cases res with
      | pageHasSpace rh =>
        obtain ⟨rfl, rfl⟩ : pages = pages' ∧ c' = current' := by simpa using h
        rw [tryAddBlock_textMetrics htry]
        exact hcur
      | pageCompleted r => exact ih h rfl

lemma calcLoop_progress {meas : TextMeasure} {tm : TextMetrics} {fuel : Nat} :
    ∀ {blocks : List ContentBlock} {pages : List Page} {current : Page},
    current.textMetrics = tm →
    (∀ b ∈ blocks, goodBlock tm b) →
    (∀ b ∈ blocks, wordCountB b + 1 < fuel) →
    calcLoop meas tm fuel blocks pages current ≠ .ok none := by
  intro blocks
  induction blocks with
  | nil =>
    intro pages current _ _ _
    rw [calcLoop]
    simp
  | cons b bs ih =>
    intro pages current hcur hgood hfuel
    rw [calcLoop]
    cases hloop : addBlockLoop meas tm fuel pages current b with
    | error e => simp
    | ok o =>
      cases o with
      | none =>
        exact absurd hloop
          (addBlockLoop_progress hcur (hgood b (by simp)) (hfuel b (by simp)))
      | some pr =>
        obtain ⟨pages', current'⟩ := pr
        have hcur' : current'.textMetrics = tm := addBlockLoop_textMetrics hloop hcur
        exact ih hcur' (fun x hx => hgood x (by simp [hx]))
          (fun x hx => hfuel x (by simp [hx]))

lemma wordCountB_le_total {blocks : List ContentBlock} {b : ContentBlock}
    (hb : b ∈ blocks) :
    wordCountB b ≤ (blocks.flatMap blockRichWords).length := by
  induction blocks with
  | nil => cases hb
  | cons x xs ih =>
    rcases List.mem_cons.1 hb with rfl | hmem
    · simp [wordCountB]
    · have := ih hmem
      simp only [List.flatMap_cons, List.length_append]
      omega

/-! ### Headings lead their page -/

/-- No heading occurs after the first block of the page. -/
def noLateHeading (page : Page) : Prop :=
  ∀ b ∈ page.blocks.drop 1, b.isHeading = false

lemma noLateHeading_new (tm : TextMetrics) : noLateHeading (Page.new tm) := by
  intro b hb
  simp [Page.new] at hb

lemma noLateHeading_push_nonheading {page : Page} {b : ContentBlock} {rh : ℚ}
    (hp : noLateHeading page) (hb : b.isHeading = false) :
    noLateHeading { page with blocks := page.blocks ++ [b], remainingHeight := rh } := by
  intro x hx
  cases hblocks : page.blocks with
  | nil =>
    rw [hblocks] at hx
    simp at hx
  | cons y ys =>
    rw [hblocks] at hx
    simp only [List.cons_append, List.drop_succ_cons, List.drop_zero] at hx
    rcases List.mem_append.1 hx with hx | hx
    · exact hp x (by rw [hblocks]; simpa using hx)
    · simp at hx
      subst hx
      exact hb

lemma tryAddBlockInner_noLateHeading {meas : TextMeasure} {page : Page}
    {b : ContentBlock} {page' : Page} {res : PageResult}
    (h : page.tryAddBlockInner meas b = .ok (page', res))
    (hp : noLateHeading page) : noLateHeading page' := by
  cases b with
  | heading content m =>
    replace h : page.tryAddHeadingBlock content m = (page', res) := by
      rw [Page.tryAddBlockInner] at h
      simpa using h
    rcases tryAddHeadingBlock_inv h with ⟨rfl, _, _⟩ | ⟨hempty, _, rfl, _⟩
    · exact hp
    · intro x hx
      have hnil : page.blocks = [] := by
        cases hblocks : page.blocks with
        | nil => rfl
        | cons y ys => rw [hblocks] at hempty; simp at hempty
      rw [hnil] at hx
      simp at hx
  | image src m =>
    rcases (tryAddImageBlock_inv h).2 with ⟨_, rfl, _⟩ | ⟨_, rfl, _⟩
    · exact hp
    · exact noLateHeading_push_nonheading hp rfl
  | richtext segs m =>
    rcases tryAddRichTextBlock_inv h with ⟨_, rfl, _⟩ |
        ⟨_, ⟨lw, rh, _, rfl, _⟩ | ⟨s, j, rh, cb, rb, _, hsplit, rfl, _⟩⟩
    · exact hp
    · exact noLateHeading_push_nonheading hp rfl
    · obtain ⟨_, _, hshape⟩ := splitBlock_ok_struct hsplit
      have hcb : cb.isHeading = false := by
        rcases hshape with ⟨_, hcb', _⟩ | ⟨_, hcb', _⟩ <;> rw [hcb'] <;> rfl
      exact noLateHeading_push_nonheading hp hcb

lemma tryAddBlock_noLateHeading {meas : TextMeasure} {page : Page}
    {b : ContentBlock} {page' : Page} {res : PageResult}
    (h : page.tryAddBlock meas b = .ok (page', res))
    (hp : noLateHeading page) : noLateHeading page' := by
  rcases tryAddBlock_inv h with ⟨_, rfl, _⟩ |
      ⟨_, ⟨pi, rh, hinner, rfl, _⟩ | ⟨pi, rb, hinner, rfl, _⟩⟩
  · exact hp
  · have hpi := tryAddBlockInner_noLateHeading hinner hp
    intro x hx
    exact hpi x hx
  · exact tryAddBlockInner_noLateHeading hinner hp

lemma addBlockLoop_noLateHeading {meas : TextMeasure} {tm : TextMetrics} :
    ∀ {fuel : Nat} {pages : List Page} {current : Page} {b : ContentBlock}
      {pages' : List Page} {current' : Page},
    addBlockLoop meas tm fuel pages current b = .ok (some (pages', current')) →
    (∀ p ∈ pages, noLateHeading p) → noLateHeading current →
    (∀ p ∈ pages', noLateHeading p) ∧ noLateHeading current' := by
  intro fuel
  induction fuel with
  | zero => intro pages current b pages' current' h _ _; cases h
  | succ fuel ih =>
    intro pages current b pages' current' h hpages hcur
    rw [addBlockLoop] at h
    cases htry : current.tryAddBlock meas b with
    | error e => rw [htry] at h; cases h
    | ok pr =>
      obtain ⟨c', res⟩ := pr
      rw [htry] at h
      have hc' := tryAddBlock_noLateHeading htry hcur
      cases res with
      | pageHasSpace rh =>
        obtain ⟨rfl, rfl⟩ : pages = pages' ∧ c' = current' := by simpa using h
        exact ⟨hpages, hc'⟩
      | pageCompleted r =>
        refine ih h ?_ (noLateHeading_new tm)
        intro p hpmem
        rcases List.mem_append.1 hpmem with hpmem | hpmem
        · exact hpages p hpmem
        · simp at hpmem
          subst hpmem
          exact hc'

lemma calcLoop_noLateHeading {meas : TextMeasure} {tm : TextMetrics} {fuel : Nat} :
    ∀ {blocks : List ContentBlock} {pages : List Page} {current : Page}
      {pages' : List Page} {current' : Page},
    calcLoop meas tm fuel blocks pages current = .ok (some (pages', current')) →
    (∀ p ∈ pages, noLateHeading p) → noLateHeading current →
    (∀ p ∈ pages', noLateHeading p) ∧ noLateHeading current' := by
  intro blocks
  induction blocks with
  | nil =>
    intro pages current pages' current' h hpages hcur
    obtain ⟨rfl, rfl⟩ : pages = pages' ∧ current = current' := by
      rw [calcLoop] at h
      simpa using h
    exact ⟨hpages, hcur⟩
  | cons b bs ih =>
    intro pages current pages' current' h hpages hcur
    rw [calcLoop] at h
    cases hloop : addBlockLoop meas tm fuel pages current b with
    | error e => rw [hloop] at h; cases h
    | ok o =>
      cases o with
      | none => rw [hloop] at h; cases h
      | some pr =>
        obtain ⟨pages₁, current₁⟩ := pr
        rw [hloop] at h
        obtain ⟨h1, h2⟩ := addBlockLoop_noLateHeading hloop hpages hcur
        exact ih h h1 h2

/-! ### Height monotonicity and result-height accuracy -/

/-- The `page-has-space` result carries exactly the page's counter as left by
the dispatched placement (before `tryAddBlock`'s paragraph-spacing
subtraction). -/
lemma tryAddBlockInner_hasSpace_height {meas : TextMeasure} {page : Page}
    {b : ContentBlock} {pi : Page} {rh : ℚ}
    (h : page.tryAddBlockInner meas b = .ok (pi, .pageHasSpace rh)) :
    pi.remainingHeight = rh := by
  cases b with
  | heading content m =>
    replace h : page.tryAddHeadingBlock content m = (pi, .pageHasSpace rh) := by
      rw [Page.tryAddBlockInner] at h
      simpa using h
    rcases tryAddHeadingBlock_inv h with ⟨_, hres, _⟩ | ⟨_, _, rfl, hres⟩
    · cases hres
    · cases hres
      rfl
  | image src m =>
    rcases (tryAddImageBlock_inv h).2 with ⟨_, _, hres⟩ | ⟨_, rfl, hres⟩
    · cases hres
    · cases hres
      rfl
  | richtext segs m =>
    rcases tryAddRichTextBlock_inv h with ⟨_, _, hres⟩ |
        ⟨_, ⟨lw, rh', _, rfl, hres⟩ | ⟨s, j, rh', cb, rb, _, _, _, hres⟩⟩
    · cases hres
    · cases hres
      rfl
    · cases hres

/-- Blocks safe for the monotonicity invariant: heading scale factors stay
nonnegative (levels up to 11) and image dimensions are nonnegative. -/
def heightSafeBlock : ContentBlock → Prop
  | .heading _ m => m.level ≤ 11
  | .image _ m => 0 ≤ m.dimensions.width ∧ 0 ≤ m.dimensions.height
  | .richtext _ _ => True

instance : (b : ContentBlock) → Decidable (heightSafeBlock b)
  | .heading _ _ => inferInstanceAs (Decidable (_ ≤ _))
  | .image _ _ => inferInstanceAs (Decidable (_ ∧ _))
  | .richtext _ _ => inferInstanceAs (Decidable True)

lemma calculateHeadingHeight_nonneg {tm : TextMetrics} {level : ℤ}
    (hfs : 0 ≤ tm.fontSize) (hlh : 0 ≤ tm.lineHeight) (hlevel : level ≤ 11) :
    0 ≤ tm.calculateHeadingHeight level := by
  rw [TextMetrics.calculateHeadingHeight]
  have hl : (level : ℚ) ≤ 11 := by exact_mod_cast hlevel
  have hfactor : 0 ≤ 5 / 2 - ((level : ℚ) - 1) * (1 / 4) := by linarith
  exact mul_nonneg (mul_nonneg hfs hlh) hfactor

lemma calculateImageHeight_nonneg {tm : TextMetrics} {d : ImageDims}
    (hcw : 0 ≤ tm.containerWidth) (hdw : 0 ≤ d.width) (hdh : 0 ≤ d.height) :
    0 ≤ tm.calculateImageHeight (some d) := by
  rw [TextMetrics.calculateImageHeight]
  exact mul_nonneg hdh (le_min (by norm_num) (div_nonneg hcw hdw))

lemma tryAddBlockInner_height_mono {meas : TextMeasure} {page : Page}
    {b : ContentBlock} {page' : Page} {res : PageResult}
    (hcw : 0 ≤ page.textMetrics.containerWidth)
    (hfs : 0 ≤ page.textMetrics.fontSize)
    (hlh : 0 ≤ page.textMetrics.lineHeight)
    (hb : heightSafeBlock b)
    (h : page.tryAddBlockInner meas b = .ok (page', res)) :
    page'.remainingHeight ≤ page.remainingHeight := by
  cases b with
  | heading content m =>
    replace h : page.tryAddHeadingBlock content m = (page', res) := by
      rw [Page.tryAddBlockInner] at h
      simpa using h
    rcases tryAddHeadingBlock_inv h with ⟨rfl, _, _⟩ | ⟨_, _, rfl, _⟩
    · exact le_refl _
    · have := @calculateHeadingHeight_nonneg page.textMetrics m.level
        hfs hlh (hb : m.level ≤ 11)
      show page.remainingHeight - _ ≤ page.remainingHeight
      linarith
  | image src m =>
    rcases (tryAddImageBlock_inv h).2 with ⟨_, rfl, _⟩ | ⟨_, rfl, _⟩
    · exact le_refl _
    · have := @calculateImageHeight_nonneg page.textMetrics m.dimensions
        hcw hb.1 hb.2
      show page.remainingHeight - _ ≤ page.remainingHeight
      linarith
  | richtext segs m =>
    rcases tryAddRichTextBlock_inv h with ⟨_, rfl, _⟩ |
        ⟨_, ⟨lw, rh, hwrap, rfl, _⟩ | ⟨s, j, rh, cb, rb, hwrap, _, rfl, _⟩⟩
    · exact le_refl _
    · have hw := @wrapBlock_height meas
        page.textMetrics.containerWidth segs 0 page.remainingHeight
      rw [hwrap] at hw
      have h40 := richLineHeight_pos
      show (if 0 < lw then rh - richLineHeight else rh) ≤ page.remainingHeight
      split_ifs <;> simp only [wrapHeight] at hw <;> linarith
    · have hw := @wrapBlock_height meas
        page.textMetrics.containerWidth segs 0 page.remainingHeight
      rw [hwrap] at hw
      simpa [wrapHeight] using hw

lemma tryAddBlock_height_mono {meas : TextMeasure} {page : Page}
    {b : ContentBlock} {page' : Page} {res : PageResult}
    (hcw : 0 ≤ page.textMetrics.containerWidth)
    (hfs : 0 ≤ page.textMetrics.fontSize)
    (hlh : 0 ≤ page.textMetrics.lineHeight)
    (hps : 0 ≤ page.textMetrics.paragraphSpacing)
    (hb : heightSafeBlock b)
    (h : page.tryAddBlock meas b = .ok (page', res)) :
    page'.remainingHeight ≤ page.remainingHeight := by
  rcases tryAddBlock_inv h with ⟨_, rfl, _⟩ |
      ⟨_, ⟨pi, rh, hinner, rfl, _⟩ | ⟨pi, rb, hinner, rfl, _⟩⟩
  · exact le_refl _
  · have := tryAddBlockInner_height_mono hcw hfs hlh hb hinner
    show pi.remainingHeight - page.textMetrics.paragraphSpacing ≤ page.remainingHeight
    linarith
  · exact tryAddBlockInner_height_mono hcw hfs hlh hb hinner

/-! ### Claim theorems -/

/-- C1.  Content preservation: whenever `calculatePages` returns a page
list, the words of all RichText segments of all pages, in page order then
block order then segment order, are exactly the words of the original
RichText segments in order — no word duplicated or dropped.  (Word lists
are compared, which is text equality modulo whitespace normalization at
the forced split points.) -/
theorem calculatePages_content_preservation
    (meas : TextMeasure) (width height fontSize lineHeight : ℚ) (fuel : Nat)
    (blocks : List ContentBlock) (pages : List Page)
    (h : calculatePages meas width height fontSize lineHeight fuel blocks
      = .ok (some pages)) :
    pages.flatMap pageRichWords = blocks.flatMap blockRichWords := by
  rw [calculatePages] at h
  cases hloop : calcLoop meas (paginatorTextMetrics width height fontSize lineHeight)
      fuel blocks [] (Page.new (paginatorTextMetrics width height fontSize lineHeight)) with
  | error e => rw [hloop] at h; cases h
  | ok o =>
    cases o with
    | none => rw [hloop] at h; cases h
    | some pr =>
      obtain ⟨pg, cur⟩ := pr
      rw [hloop] at h
      obtain rfl : pg ++ [cur] = pages := by simpa using h
      have hw := calcLoop_words hloop
      simp only [List.flatMap_nil, List.nil_append] at hw
      rw [List.flatMap_append]
      simp only [List.flatMap_cons, List.flatMap_nil, List.append_nil]
      rw [hw]
      simp [pageRichWords, Page.new]

/-- C2 (amended).  Termination: provided every block can make progress on a
fresh page — positive container height, headings no taller than the
container, and a container at least one fixed richtext line (40px) high
when a RichText block occurs — `calculatePages` terminates: some fuel
(explicitly, the total word count plus two) yields a result, either a page
list or a structural error; the fuel-exhaustion marker is never returned. -/
theorem calculatePages_terminates
    (meas : TextMeasure) (width height fontSize lineHeight : ℚ)
    (blocks : List ContentBlock)
    (hgood : ∀ b ∈ blocks,
      goodBlock (paginatorTextMetrics width height fontSize lineHeight) b) :
    terminatesOn meas width height fontSize lineHeight blocks := by
  refine ⟨sufficientFuel blocks, ?_⟩
  rw [calculatePages]
  cases hloop : calcLoop meas (paginatorTextMetrics width height fontSize lineHeight)
      (sufficientFuel blocks) blocks []
      (Page.new (paginatorTextMetrics width height fontSize lineHeight)) with
  | error e => simp
  | ok o =>
    cases o with
    | none =>
      exact absurd hloop
        (calcLoop_progress rfl hgood
          (fun b hb => by
            have := wordCountB_le_total hb
            rw [sufficientFuel]
            omega))
    | some pr =>
      obtain ⟨pg, cur⟩ := pr
      simp

/-- C3.  Split integrity: a successful `splitBlock` yields two RichText
blocks with the original block metadata whose segment lists concatenate to
the original list with at most the split-point segment divided into two
(style and segment metadata preserved, its words partitioned between the
halves); a split at word index 0 splits exactly at the segment boundary,
dividing no segment. -/
theorem splitBlock_integrity
    (segs : List RichTextSegment) (m : RichTextMeta) (s j : Nat)
    (cb rb : ContentBlock)
    (h : splitBlock segs m s j = .ok (cb, rb)) :
    ∃ csegs rsegs, cb = .richtext csegs m ∧ rb = .richtext rsegs m ∧
      ((j = 0 ∧ csegs ++ rsegs = segs) ∨
        (0 < j ∧ ∃ (hs : s < segs.length) (t1 t2 : RichTextSegment),
          csegs ++ rsegs = segs.take s ++ t1 :: t2 :: segs.drop (s + 1) ∧
          t1.style = (segs.get ⟨s, hs⟩).style ∧
          t2.style = (segs.get ⟨s, hs⟩).style ∧
          t1.metadata = (segs.get ⟨s, hs⟩).metadata ∧
          t2.metadata = (segs.get ⟨s, hs⟩).metadata ∧
          segWords t1 ++ segWords t2 = segWords (segs.get ⟨s, hs⟩))) := by
  obtain ⟨hs', hj', hshape⟩ := splitBlock_ok_struct h
  rcases hshape with ⟨hj0, hcb, hrb⟩ | ⟨hj0, hcb, hrb⟩
  · exact ⟨segs.take s, segs.drop s, hcb, hrb,
      Or.inl ⟨hj0, List.take_append_drop s segs⟩⟩
  · refine ⟨segs.take s ++
      [{ segs.get ⟨s, hs'⟩ with
          text := joinWords ((splitWords (segs.get ⟨s, hs'⟩).text).take j) }],
      { segs.get ⟨s, hs'⟩ with
          text := joinWords ((splitWords (segs.get ⟨s, hs'⟩).text).drop j) } ::
        segs.drop (s + 1), hcb, hrb, Or.inr ⟨hj0, hs',
      { segs.get ⟨s, hs'⟩ with
          text := joinWords ((splitWords (segs.get ⟨s, hs'⟩).text).take j) },
      { segs.get ⟨s, hs'⟩ with
          text := joinWords ((splitWords (segs.get ⟨s, hs'⟩).text).drop j) },
      by simp, rfl, rfl, rfl, rfl, ?_⟩⟩
    show splitWords (joinWords ((splitWords (segs.get ⟨s, hs'⟩).text).take j)) ++
        splitWords (joinWords ((splitWords (segs.get ⟨s, hs'⟩).text).drop j))
      = splitWords (segs.get ⟨s, hs'⟩).text
    rw [segWords_join_take j, segWords_join_drop j, List.take_append_drop]

/-- C5.  Minimum output: `calculatePages` on the empty block sequence
returns exactly one page, and that page holds zero blocks. -/
theorem calculatePages_empty
    (meas : TextMeasure) (width height fontSize lineHeight : ℚ) (fuel : Nat) :
    calculatePages meas width height fontSize lineHeight fuel []
        = .ok (some [Page.new (paginatorTextMetrics width height fontSize lineHeight)]) ∧
      (Page.new (paginatorTextMetrics width height fontSize lineHeight)).blocks = [] := by
  constructor
  · rw [calculatePages, calcLoop]
    rfl
  · rfl

lemma get_mem_drop_one {α : Type} :
    ∀ (l : List α) (i : Nat) (hi : i < l.length), 0 < i →
      l.get ⟨i, hi⟩ ∈ l.drop 1 := by
  intro l i hi hpos
  cases l with
  | nil => simp at hi
  | cons hd tl =>
    cases i with
    | zero => omega
    | succ i' =>
      show tl.get ⟨i', _⟩ ∈ tl
      exact List.get_mem tl _ _

/-- C4.  Heading leading rule: on a page that already holds a block,
`tryAddBlock` returns page-completed with the whole heading as remainder
and places nothing; consequently every page a `calculatePages` run
produces has headings only as its first block. -/
theorem heading_leading_rule :
    (∀ (meas : TextMeasure) (page : Page) (content : String) (m : HeadingMeta),
      page.blocks ≠ [] →
      page.tryAddBlock meas (.heading content m)
        = .ok (page, .pageCompleted (.heading content m))) ∧
    (∀ (meas : TextMeasure) (width height fontSize lineHeight : ℚ) (fuel : Nat)
      (blocks : List ContentBlock) (pages : List Page),
      calculatePages meas width height fontSize lineHeight fuel blocks
        = .ok (some pages) →
      ∀ p ∈ pages, ∀ (i : Nat) (hi : i < p.blocks.length),
        0 < i → (p.blocks.get ⟨i, hi⟩).isHeading = false) := by
  constructor
  · intro meas page content m hne
    by_cases hrh : page.remainingHeight ≤ 0
    · rw [Page.tryAddBlock, if_pos hrh]
    · rw [Page.tryAddBlock, if_neg hrh]
      have hinner : page.tryAddBlockInner meas (.heading content m)
          = .ok (page, .pageCompleted (.heading content m)) := by
        show Except.ok (page.tryAddHeadingBlock content m)
          = .ok (page, .pageCompleted (.heading content m))
        rw [Page.tryAddHeadingBlock,
          if_pos (by cases hb : page.blocks with
            | nil => exact absurd hb hne
            | cons x xs => simp)]
      rw [hinner]
  · intro meas width height fontSize lineHeight fuel blocks pages h p hp i hi hipos
    rw [calculatePages] at h
    cases hloop : calcLoop meas (paginatorTextMetrics width height fontSize lineHeight)
        fuel blocks [] (Page.new (paginatorTextMetrics width height fontSize lineHeight)) with
    | error e => rw [hloop] at h; cases h
    | ok o =>
      cases o with
      | none => rw [hloop] at h; cases h
      | some pr =>
        obtain ⟨pg, cur⟩ := pr
        rw [hloop] at h
        obtain rfl : pg ++ [cur] = pages := by simpa using h
        obtain ⟨hall, hcur⟩ := calcLoop_noLateHeading hloop
          (by intro x hx; cases hx) (noLateHeading_new _)
        have hplate : noLateHeading p := by
          rcases List.mem_append.1 hp with hmem | hmem
          · exact hall p hmem
          · simp at hmem
            subst hmem
            exact hcur
        exact hplate _ (get_mem_drop_one p.blocks i hi hipos)

/-- C6.  Paragraph-spacing asymmetry: a `page-has-space` outcome of
`tryAddBlock` leaves the counter exactly `paragraphSpacing` below what the
dispatched placement left (one extra subtraction, blocks untouched by it);
a `page-completed` outcome applies no paragraph-spacing subtraction — the
page is exactly what the dispatch (or the full-page guard) produced. -/
theorem paragraphSpacing_asymmetry
    (meas : TextMeasure) (page : Page) (b : ContentBlock)
    (page' : Page) (res : PageResult)
    (h : page.tryAddBlock meas b = .ok (page', res)) :
    (∀ rh, res = .pageHasSpace rh →
      ∃ pi, page.tryAddBlockInner meas b = .ok (pi, .pageHasSpace rh) ∧
        page'.blocks = pi.blocks ∧
        page'.remainingHeight
          = pi.remainingHeight - page.textMetrics.paragraphSpacing) ∧
    (∀ rb, res = .pageCompleted rb →
      (page.remainingHeight ≤ 0 ∧ page' = page) ∨
      page.tryAddBlockInner meas b = .ok (page', .pageCompleted rb)) := by
  rcases tryAddBlock_inv h with ⟨hguard, rfl, rfl⟩ |
      ⟨hguard, ⟨pi, rh, hinner, rfl, rfl⟩ | ⟨pi, rb, hinner, rfl, rfl⟩⟩
  · refine ⟨(fun rh hres => by cases hres), fun rb hres => ?_⟩
    obtain rfl : rb = b := by cases hres; rfl
    exact Or.inl ⟨hguard, rfl⟩
  · refine ⟨fun rh' hres => ?_, (fun rb hres => by cases hres)⟩
    obtain rfl : rh' = rh := by cases hres; rfl
    exact ⟨pi, hinner, rfl, rfl⟩
  · refine ⟨(fun rh hres => by cases hres), fun rb' hres => ?_⟩
    obtain rfl : rb' = rb := by cases hres; rfl
    exact Or.inr hinner

/-- C7 (amended).  Monotonic remaining height: a fresh page starts at the
container height, and with nonnegative container width and height, font
size, line height and paragraph spacing, every `tryAddBlock` call whose
image dimensions are nonnegative and whose heading level is at most 11
(nonnegative computed height; the data model's levels 1-6 qualify) leaves
`remainingHeight` no larger than before the call. -/
theorem remainingHeight_monotone (tm : TextMetrics)
    (hcw : 0 ≤ tm.containerWidth) (hch : 0 ≤ tm.containerHeight)
    (hfs : 0 ≤ tm.fontSize) (hlh : 0 ≤ tm.lineHeight)
    (hps : 0 ≤ tm.paragraphSpacing) :
    (Page.new tm).remainingHeight = tm.containerHeight ∧
    (∀ (meas : TextMeasure) (page : Page) (b : ContentBlock)
      (page' : Page) (res : PageResult),
      page.textMetrics = tm → heightSafeBlock b →
      page.tryAddBlock meas b = .ok (page', res) →
      page'.remainingHeight ≤ page.remainingHeight) := by
  refine ⟨rfl, ?_⟩
  intro meas page b page' res htm hb h
  exact tryAddBlock_height_mono (htm ▸ hcw) (htm ▸ hfs) (htm ▸ hlh) (htm ▸ hps) hb h

/-- C8.  Anchor lookup: `checkIfPageContainsId` (modelled from the spec;
its implementation is absent from the sources) is true exactly when a
placed block's own metadata id or some RichText segment's metadata id on
the page equals the query; and the `findIndex` scan of
`BookReader.navigateToId` returns the first page index, in page order,
whose page contains the id. -/
theorem anchor_lookup :
    (∀ (page : Page) (id : String),
      page.checkIfPageContainsId id = true ↔
        ∃ b ∈ page.blocks, b.metadataId = some id ∨
          ∃ segs m, b = ContentBlock.richtext segs m ∧
            ∃ seg ∈ segs, seg.metadata.id = some id) ∧
    (∀ (id : String) (pages : List Page) (i : Nat),
      pageScan id pages = some i →
      ∃ hi : i < pages.length,
        (pages.get ⟨i, hi⟩).checkIfPageContainsId id = true ∧
        ∀ (j : Nat) (hj : j < pages.length), j < i →
          (pages.get ⟨j, hj⟩).checkIfPageContainsId id = false) := by
  constructor
  · intro page id
    rw [Page.checkIfPageContainsId, List.any_eq_true]
    constructor
    · rintro ⟨b, hb, hpred⟩
      refine ⟨b, hb, ?_⟩
      simp only [Bool.or_eq_true, beq_iff_eq] at hpred
      rcases hpred with hid | hid
      · exact Or.inl hid
      · cases b with
        | richtext segs m =>
          rw [List.any_eq_true] at hid
          obtain ⟨seg, hseg, hsid⟩ := hid
          exact Or.inr ⟨segs, m, rfl, seg, hseg, by simpa using hsid⟩
        | heading content m => cases hid
        | image src m => cases hid
    · rintro ⟨b, hb, hid | ⟨segs, m, rfl, seg, hseg, hsid⟩⟩
      · exact ⟨b, hb, by simp [hid]⟩
      · refine ⟨_, hb, ?_⟩
        simp only [Bool.or_eq_true]
        refine Or.inr ?_
        rw [List.any_eq_true]
        exact ⟨seg, hseg, by simp [hsid]⟩
  · intro id pages
    induction pages with
    | nil => intro i h; rw [pageScan] at h; cases h
    | cons p ps ih =>
      intro i h
      rw [pageScan] at h
      by_cases hp : p.checkIfPageContainsId id
      · rw [if_pos hp] at h
        obtain rfl : i = 0 := by cases h; rfl
        exact ⟨by simp, hp, fun j hj hji => absurd hji (by omega)⟩
      · rw [if_neg hp] at h
        cases hscan : pageScan id ps with
        | none => rw [hscan] at h; cases h
        | some i' =>
          rw [hscan] at h
          obtain rfl : i = i' + 1 := by cases h; rfl
          obtain ⟨hi', hfound, hbef⟩ := ih i' hscan
          refine ⟨by simp; omega, hfound, ?_⟩
          intro j hj hji
          cases j with
          | zero => simpa using hp
          | succ j' =>
            have hj' : j' < ps.length := by simp at hj; omega
            have := hbef j' hj' (by omega)
            simpa using this

/-- C9 (amended).  The `remainingHeight` carried by a `page-has-space`
result is the counter as it stood right after the block's placement,
before the paragraph-spacing subtraction; the page's counter when
`tryAddBlock` returns is that value minus the configured
`paragraphSpacing` (the source's `TODO: update the result accordingly`
marks the staleness). -/
theorem hasSpace_result_height
    (meas : TextMeasure) (page : Page) (b : ContentBlock)
    (page' : Page) (rh : ℚ)
    (h : page.tryAddBlock meas b = .ok (page', .pageHasSpace rh)) :
    page'.remainingHeight = rh - page.textMetrics.paragraphSpacing := by
  rcases tryAddBlock_inv h with ⟨_, _, hres⟩ |
      ⟨_, ⟨pi, rh₂, hinner, rfl, hres⟩ | ⟨pi, rb, _, _, hres⟩⟩
  · cases hres
  · obtain rfl : rh = rh₂ := by cases hres; rfl
    have := tryAddBlockInner_hasSpace_height hinner
    show pi.remainingHeight - page.textMetrics.paragraphSpacing = _
    rw [this]
  · cases hres

/-- C10.  RichText entry guard: with a strictly positive counter below one
fixed richtext line (`24 * (5/3) = 40` px, independent of the configured
`TextMetrics`), `tryAddBlock` on a RichText block returns page-completed
with the entire block as remainder and leaves the page untouched. -/
theorem richtext_entry_guard
    (meas : TextMeasure) (page : Page)
    (segs : List RichTextSegment) (m : RichTextMeta)
    (h1 : 0 < page.remainingHeight) (h2 : page.remainingHeight < 40) :
    page.tryAddBlock meas (.richtext segs m)
      = .ok (page, .pageCompleted (.richtext segs m)) := by
  have h40 : richLineHeight = (40 : ℚ) := by rw [richLineHeight]; norm_num
  rw [Page.tryAddBlock, if_neg (by linarith)]
  have hinner : page.tryAddBlockInner meas (.richtext segs m)
      = .ok (page, .pageCompleted (.richtext segs m)) := by
    show page.tryAddRichTextBlock meas segs m
      = .ok (page, .pageCompleted (.richtext segs m))
    rw [Page.tryAddRichTextBlock, if_pos (by rw [h40]; exact h2)]
  rw [hinner]

/-! ### Concrete instances for witnesses and counterexamples -/

/-- A deterministic fake measurer: every string is 10px wide (mirrors the
repository's test mock `measureText: ... ({ width: 10 })`). -/
def tenMeasure : TextMeasure := fun _ _ => 10

/-- The metrics `calculatePages` assembles for a 100×100 container at font
size 15 and line-height 1.5 (`paragraphSpacing = ceil(15*4/3) = 20`). -/
def witTM : TextMetrics :=
  { containerWidth := 100, containerHeight := 100, fontSize := 15,
    lineHeight := 3 / 2, paragraphSpacing := 20 }

def witB : ContentBlock := .richtext [{ text := "aa bb" }] { tag := "p" }

/-- The page produced by placing `witB` on a fresh `witTM` page. -/
def witP : Page := { textMetrics := witTM, blocks := [witB], remainingHeight := 40 }

lemma splitWords_aabb : splitWords "aa bb" = ["aa", "bb"] := by
  simp +decide [splitWords, chunkWords]

lemma tryAdd_eval_hasSpace :
    (Page.new witTM).tryAddBlock tenMeasure witB = .ok (witP, .pageHasSpace 60) := by
  simp only [witB, witP]
  rw [Page.tryAddBlock]
  norm_num [Page.new, witTM]
  rw [Page.tryAddBlockInner, Page.tryAddRichTextBlock]
  norm_num [Page.new, witTM, richLineHeight]
  rw [wrapBlock, splitWords_aabb]
  rw [wrapSegment]
  norm_num [tenMeasure]
  rw [wrapSegment, wrapSegment]
  norm_num [tenMeasure, SegStep.shift]
  rw [wrapSegment]
  norm_num [wrapBlock]

lemma witTM_eq : paginatorTextMetrics 100 100 15 (3 / 2) = witTM := by
  simp only [paginatorTextMetrics, witTM]
  norm_num

/-- A full one-block pagination run used by several witnesses. -/
lemma witRun :
    calculatePages tenMeasure 100 100 15 (3 / 2) 5 [witB] = .ok (some [witP]) := by
  rw [calculatePages, witTM_eq, calcLoop]
  rw [show addBlockLoop tenMeasure witTM 5 [] (Page.new witTM) witB
      = .ok (some ([], witP)) from by rw [addBlockLoop, tryAdd_eval_hasSpace]]
  dsimp only
  rw [calcLoop]
  rfl

/-! ### Witnesses and counterexamples -/

/-- C1 witness: a concrete run placing one two-word RichText block; the
words of the output pages are the input words. -/
theorem calculatePages_content_preservation_witness :
    calculatePages tenMeasure 100 100 15 (3 / 2) 5 [witB] = .ok (some [witP]) ∧
    ([witP] : List Page).flatMap pageRichWords = ([witB] : List ContentBlock).flatMap blockRichWords :=
  ⟨witRun,
    calculatePages_content_preservation tenMeasure 100 100 15 (3 / 2) 5 [witB] [witP] witRun⟩

/-- C2 counterexample: a heading taller than the container makes
`calculatePages` loop forever (every fuel budget is exhausted), so the
claim's unconditional termination fails. -/
theorem calculatePages_heading_nontermination :
    ¬ terminatesOn tenMeasure 600 50 16 (3 / 2)
      [.heading "Chapter" { level := 1 }] := by
  have htry : (Page.new (paginatorTextMetrics 600 50 16 (3 / 2))).tryAddBlock tenMeasure
      (.heading "Chapter" { level := 1 })
      = .ok (Page.new (paginatorTextMetrics 600 50 16 (3 / 2)),
          .pageCompleted (.heading "Chapter" { level := 1 })) := by
    rw [Page.tryAddBlock,
      if_neg (by norm_num [Page.new, paginatorTextMetrics])]
    have hinner : (Page.new (paginatorTextMetrics 600 50 16 (3 / 2))).tryAddBlockInner
        tenMeasure (.heading "Chapter" { level := 1 })
        = .ok (Page.new (paginatorTextMetrics 600 50 16 (3 / 2)),
            .pageCompleted (.heading "Chapter" { level := 1 })) := by
      show Except.ok ((Page.new (paginatorTextMetrics 600 50 16 (3 / 2))).tryAddHeadingBlock
        "Chapter" { level := 1 }) = _
      rw [Page.tryAddHeadingBlock, if_neg (by simp [Page.new]),
        if_pos (by norm_num [Page.new, paginatorTextMetrics,
          TextMetrics.calculateHeadingHeight])]
    rw [hinner]
  have hloop : ∀ (fuel : Nat) (pages : List Page),
      addBlockLoop tenMeasure (paginatorTextMetrics 600 50 16 (3 / 2)) fuel pages
        (Page.new (paginatorTextMetrics 600 50 16 (3 / 2)))
        (.heading "Chapter" { level := 1 }) = .ok none := by
    intro fuel
    induction fuel with
    | zero => intro pages; rw [addBlockLoop]
    | succ fuel ih =>
      intro pages
      rw [addBlockLoop, htry]
      exact ih _
  rintro ⟨fuel, hfuel⟩
  apply hfuel
  rw [calculatePages, calcLoop, hloop fuel []]

/-- C2 witness: a heading that fits the container paginates with the
computed sufficient fuel. -/
theorem calculatePages_terminates_witness :
    (∀ b ∈ ([.heading "T" { level := 1 }] : List ContentBlock),
      goodBlock (paginatorTextMetrics 600 100 16 (3 / 2)) b) ∧
    terminatesOn tenMeasure 600 100 16 (3 / 2) [.heading "T" { level := 1 }] := by
  have hg : ∀ b ∈ ([.heading "T" { level := 1 }] : List ContentBlock),
      goodBlock (paginatorTextMetrics 600 100 16 (3 / 2)) b := by
    intro b hb
    simp only [List.mem_singleton] at hb
    subst hb
    refine ⟨?_, by norm_num [paginatorTextMetrics]⟩
    norm_num [paginatorTextMetrics, TextMetrics.calculateHeadingHeight]
  exact ⟨hg, calculatePages_terminates tenMeasure 600 100 16 (3 / 2) _ hg⟩

lemma splitBlock_eval :
    splitBlock [{ text := "aa bb" }] { tag := "p" } 0 1
      = .ok (.richtext [{ text := "aa" }] { tag := "p" },
             .richtext [{ text := "bb" }] { tag := "p" }) := by
  rw [splitBlock]
  rw [show ([{ text := "aa bb" }] : List RichTextSegment)[0]?
      = some { text := "aa bb" } from rfl]
  dsimp only
  rw [splitWords_aabb]
  rw [if_neg (by norm_num), if_neg (by norm_num)]
  have hjoin1 : joinWords ["aa"] = "aa" := rfl
  have hjoin2 : joinWords ["bb"] = "bb" := rfl
  simp [hjoin1, hjoin2]

/-- C3 witness: splitting a one-segment block after its first word divides
exactly that segment into two halves whose words partition the original. -/
theorem splitBlock_integrity_witness :
    splitBlock [{ text := "aa bb" }] { tag := "p" } 0 1
      = .ok (.richtext [{ text := "aa" }] { tag := "p" },
             .richtext [{ text := "bb" }] { tag := "p" }) ∧
    (∃ csegs rsegs,
      (ContentBlock.richtext [{ text := "aa" }] { tag := "p" })
        = .richtext csegs { tag := "p" } ∧
      (ContentBlock.richtext [{ text := "bb" }] { tag := "p" })
        = .richtext rsegs { tag := "p" } ∧
      ((1 = 0 ∧ csegs ++ rsegs = [{ text := "aa bb" }]) ∨
        (0 < 1 ∧ ∃ (hs : 0 < ([{ text := "aa bb" }] : List RichTextSegment).length)
          (t1 t2 : RichTextSegment),
          csegs ++ rsegs = ([{ text := "aa bb" }] : List RichTextSegment).take 0
              ++ t1 :: t2 :: ([{ text := "aa bb" }] : List RichTextSegment).drop 1 ∧
          t1.style = (([{ text := "aa bb" }] : List RichTextSegment).get ⟨0, hs⟩).style ∧
          t2.style = (([{ text := "aa bb" }] : List RichTextSegment).get ⟨0, hs⟩).style ∧
          t1.metadata = (([{ text := "aa bb" }] : List RichTextSegment).get ⟨0, hs⟩).metadata ∧
          t2.metadata = (([{ text := "aa bb" }] : List RichTextSegment).get ⟨0, hs⟩).metadata ∧
          segWords t1 ++ segWords t2
            = segWords (([{ text := "aa bb" }] : List RichTextSegment).get ⟨0, hs⟩)))) :=
  ⟨splitBlock_eval, splitBlock_integrity _ _ _ _ _ _ splitBlock_eval⟩

/-- C4 witness: a heading offered to a page already holding a block comes
back whole, and the concrete one-block run yields pages with headings only
in front position (vacuously here: the sole page holds one richtext
block). -/
theorem heading_leading_rule_witness :
    (witP.blocks ≠ [] ∧
      witP.tryAddBlock tenMeasure (.heading "H" { level := 2 })
        = .ok (witP, .pageCompleted (.heading "H" { level := 2 }))) ∧
    (calculatePages tenMeasure 100 100 15 (3 / 2) 5 [witB] = .ok (some [witP]) ∧
      ∀ p ∈ ([witP] : List Page), ∀ (i : Nat) (hi : i < p.blocks.length),
        0 < i → (p.blocks.get ⟨i, hi⟩).isHeading = false) := by
  have hne : witP.blocks ≠ [] := by simp [witP]
  exact ⟨⟨hne, heading_leading_rule.1 tenMeasure witP "H" _ hne⟩,
    ⟨witRun, heading_leading_rule.2 tenMeasure 100 100 15 (3 / 2) 5 [witB] [witP] witRun⟩⟩

/-- C6 witness: on the concrete has-space placement, the page counter sits
exactly `paragraphSpacing` below the dispatched placement's counter. -/
theorem paragraphSpacing_asymmetry_witness :
    (Page.new witTM).tryAddBlock tenMeasure witB = .ok (witP, .pageHasSpace 60) ∧
    (∃ pi, (Page.new witTM).tryAddBlockInner tenMeasure witB
        = .ok (pi, .pageHasSpace 60) ∧
      witP.blocks = pi.blocks ∧
      witP.remainingHeight
        = pi.remainingHeight - (Page.new witTM).textMetrics.paragraphSpacing) :=
  ⟨tryAdd_eval_hasSpace,
    (paragraphSpacing_asymmetry tenMeasure (Page.new witTM) witB witP
      (.pageHasSpace 60) tryAdd_eval_hasSpace).1 60 rfl⟩

def tm7 : TextMetrics :=
  { containerWidth := 600, containerHeight := 100, fontSize := 16,
    lineHeight := 1, paragraphSpacing := 0 }

/-- C7 counterexample: all the claim's numeric hypotheses hold (nonnegative
metrics, no image blocks), yet a level-12 heading has negative computed
height and the placement increases `remainingHeight` from 100 to 104. -/
theorem remainingHeight_monotone_counterexample :
    ((0 : ℚ) ≤ tm7.containerWidth ∧ (0 : ℚ) ≤ tm7.containerHeight ∧
      (0 : ℚ) ≤ tm7.fontSize ∧ (0 : ℚ) ≤ tm7.lineHeight ∧
      (0 : ℚ) ≤ tm7.paragraphSpacing) ∧
    (Page.new tm7).tryAddBlock tenMeasure (.heading "x" { level := 12 })
      = .ok ({ textMetrics := tm7, blocks := [.heading "x" { level := 12 }],
               remainingHeight := 104 }, .pageHasSpace 104) ∧
    (Page.new tm7).remainingHeight < 104 := by
  refine ⟨by norm_num [tm7], ?_, by norm_num [Page.new, tm7]⟩
  rw [Page.tryAddBlock, if_neg (by norm_num [Page.new, tm7])]
  have hinner : (Page.new tm7).tryAddBlockInner tenMeasure (.heading "x" { level := 12 })
      = .ok ({ textMetrics := tm7, blocks := [.heading "x" { level := 12 }],
               remainingHeight := 104 }, .pageHasSpace 104) := by
    show Except.ok ((Page.new tm7).tryAddHeadingBlock "x" { level := 12 }) = _
    rw [Page.tryAddHeadingBlock, if_neg (by simp [Page.new]),
      if_neg (by norm_num [Page.new, tm7, TextMetrics.calculateHeadingHeight])]
    simp only [Page.new, tm7, TextMetrics.calculateHeadingHeight]
    norm_num
  rw [hinner]
  dsimp only
  simp only [Page.new, tm7]
  norm_num

/-- C7 witness: the amended monotonicity at a concrete placement — the
fresh page starts at 100 and the counter falls to 40. -/
theorem remainingHeight_monotone_witness :
    ((0 : ℚ) ≤ witTM.containerWidth ∧ (0 : ℚ) ≤ witTM.containerHeight ∧
      (0 : ℚ) ≤ witTM.fontSize ∧ (0 : ℚ) ≤ witTM.lineHeight ∧
      (0 : ℚ) ≤ witTM.paragraphSpacing ∧
      (Page.new witTM).textMetrics = witTM ∧ heightSafeBlock witB ∧
      (Page.new witTM).tryAddBlock tenMeasure witB = .ok (witP, .pageHasSpace 60)) ∧
    ((Page.new witTM).remainingHeight = witTM.containerHeight ∧
      witP.remainingHeight ≤ (Page.new witTM).remainingHeight) := by
  have h1 : (0 : ℚ) ≤ witTM.containerWidth := by norm_num [witTM]
  have h2 : (0 : ℚ) ≤ witTM.containerHeight := by norm_num [witTM]
  have h3 : (0 : ℚ) ≤ witTM.fontSize := by norm_num [witTM]
  have h4 : (0 : ℚ) ≤ witTM.lineHeight := by norm_num [witTM]
  have h5 : (0 : ℚ) ≤ witTM.paragraphSpacing := by norm_num [witTM]
  have hsafe : heightSafeBlock witB := by rw [witB]; trivial
  refine ⟨⟨h1, h2, h3, h4, h5, rfl, hsafe, tryAdd_eval_hasSpace⟩,
    (remainingHeight_monotone witTM h1 h2 h3 h4 h5).1,
    (remainingHeight_monotone witTM h1 h2 h3 h4 h5).2 tenMeasure (Page.new witTM)
      witB witP (.pageHasSpace 60) rfl hsafe tryAdd_eval_hasSpace⟩

def pageNoAnchor : Page :=
  { textMetrics := witTM, blocks := [witB], remainingHeight := 0 }

def pageWithAnchor : Page :=
  { textMetrics := witTM,
    blocks := [.richtext [{ text := "x", metadata := { id := some "anchor" } }]
      { tag := "p" }],
    remainingHeight := 0 }

/-- C8 witness: the scan over a concrete two-page chapter finds the anchor
on the second page and reports index 1 with no earlier match. -/
theorem anchor_lookup_witness :
    pageScan "anchor" [pageNoAnchor, pageWithAnchor] = some 1 ∧
    ∃ hi : 1 < ([pageNoAnchor, pageWithAnchor] : List Page).length,
      (([pageNoAnchor, pageWithAnchor] : List Page).get
        ⟨1, hi⟩).checkIfPageContainsId "anchor" = true ∧
      ∀ (j : Nat) (hj : j < ([pageNoAnchor, pageWithAnchor] : List Page).length),
        j < 1 →
        (([pageNoAnchor, pageWithAnchor] : List Page).get
          ⟨j, hj⟩).checkIfPageContainsId "anchor" = false := by
  have hscan : pageScan "anchor" [pageNoAnchor, pageWithAnchor] = some 1 := by
    rw [pageScan, if_neg (by decide), pageScan, if_pos (by decide)]
    rfl
  exact ⟨hscan, anchor_lookup.2 "anchor" [pageNoAnchor, pageWithAnchor] 1 hscan⟩

/-- C9 counterexample: the concrete has-space placement returns
`remainingHeight = 60`, but the page's counter at return is 40 (the
paragraph spacing of 20 was subtracted after the result was built), so the
result does not equal the counter at the moment `tryAddBlock` returns. -/
theorem hasSpace_result_stale_counterexample :
    (Page.new witTM).tryAddBlock tenMeasure witB = .ok (witP, .pageHasSpace 60) ∧
    witP.remainingHeight ≠ 60 :=
  ⟨tryAdd_eval_hasSpace, by norm_num [witP]⟩

/-- C9 witness: on the same placement the amended relation holds —
`40 = 60 - 20`. -/
theorem hasSpace_result_height_witness :
    (Page.new witTM).tryAddBlock tenMeasure witB = .ok (witP, .pageHasSpace 60) ∧
    witP.remainingHeight = 60 - (Page.new witTM).textMetrics.paragraphSpacing :=
  ⟨tryAdd_eval_hasSpace,
    hasSpace_result_height tenMeasure (Page.new witTM) witB witP 60 tryAdd_eval_hasSpace⟩

def page30 : Page := { textMetrics := witTM, blocks := [], remainingHeight := 30 }

/-- C10 witness: a page with 30px left (strictly below the fixed 40px
line) bounces a RichText block back whole, leaving the page unchanged. -/
theorem richtext_entry_guard_witness :
    ((0 : ℚ) < page30.remainingHeight ∧ page30.remainingHeight < 40) ∧
    page30.tryAddBlock tenMeasure (.richtext [{ text := "aa bb" }] { tag := "p" })
      = .ok (page30, .pageCompleted (.richtext [{ text := "aa bb" }] { tag := "p" })) :=
  ⟨⟨by norm_num [page30], by norm_num [page30]⟩,
    richtext_entry_guard tenMeasure page30 [{ text := "aa bb" }] { tag := "p" }
      (by norm_num [page30]) (by norm_num [page30])⟩
